import Mathlib

/-
Verification development for the Arc sidebar bookmark exporter
(src/arc_export.py).  The Python module is shallowly embedded below:
JSON documents become the inductive `Json`, Python dicts become
association lists in insertion order (`alistGet` is `dict.get`,
`alistInsert` is `dict.__setitem__`, which overwrites in place keeping
the original position), and each function of the module is translated
one-to-one.  Python truthiness of JSON values is modelled by `jtruthy`;
`x or y` on such values is `pyOr`.  `str.strip()` is `pstrip` and
`str.lower()` is `pyLower`, both over the underlying character list
(Python strips a slightly larger whitespace set - form feed, vertical
tab and Unicode spaces - which no property here depends on).
-/

set_option linter.unusedVariables false

inductive Json where
  | null
  | bool (b : Bool)
  | num (n : Int)
  | str (s : String)
  | arr (elems : List Json)
  | obj (fields : List (String × Json))

instance : Inhabited Json := ⟨Json.null⟩

/-- Lookup in a Python dict modelled as an association list (first match). -/
def alistGet {α : Type} (l : List (String × α)) (k : String) : Option α :=
  match l with
  | [] => none
  | (k', v) :: rest => if k' = k then some v else alistGet rest k

/-- Membership test `k in d` on a Python dict. -/
def alistHasKey {α : Type} (l : List (String × α)) (k : String) : Bool :=
  (alistGet l k).isSome

/-- Assignment `d[k] = v` on a Python dict: overwriting an existing key keeps
its original insertion position, a new key is appended at the end. -/
def alistInsert {α : Type} (l : List (String × α)) (k : String) (v : α) :
    List (String × α) :=
  match l with
  | [] => [(k, v)]
  | (k', v') :: rest =>
    if k' = k then (k, v) :: rest else (k', v') :: alistInsert rest k v

/-- Python truthiness of a JSON value. -/
def jtruthy : Json → Bool
  | .null => false
  | .bool b => b
  | .num n => decide (n ≠ 0)
  | .str s => decide (s ≠ "")
  | .arr xs => !xs.isEmpty
  | .obj fs => !fs.isEmpty

/-- Truthiness of an optional JSON value (`None` is falsy). -/
def otruthy : Option Json → Bool
  | none => false
  | some j => jtruthy j

/-- Python `x or y` over optional JSON values: `y` when `x` is falsy. -/
def pyOr (a b : Option Json) : Option Json :=
  if otruthy a then a else b

/-- Extracts a string value (`isinstance(v, str)` check plus the value). -/
def strOf : Json → Option String
  | .str s => some s
  | _ => none

/-- Python `str.strip()` on the character list: drop leading and trailing
whitespace. -/
def stripChars (l : List Char) : List Char :=
  ((l.dropWhile Char.isWhitespace).reverse.dropWhile Char.isWhitespace).reverse

/-- Python `str.strip()`. -/
def pstrip (s : String) : String := ⟨stripChars s.data⟩

/-- Python `str.lower()` (ASCII-faithful). -/
def pyLower (s : String) : String := ⟨s.data.map Char.toLower⟩

/-- Python `str(v)` for the values `space.get("title") or space.get("name")`
can produce.  Scalars are rendered exactly; the container reprs (which no
claim depends on) are approximated by fixed tags. -/
def pyStr : Json → String
  | .str s => s
  | .num n => toString n
  | .bool true => "True"
  | .bool false => "False"
  | .null => "None"
  | .arr _ => "[...]"
  | .obj _ => "{...}"

/-- Bookmark dataclass of the source. -/
structure Bookmark where
  title : String
  url : String
deriving DecidableEq, Repr

/-- Folder/Bookmark union of the source (`Folder.children` holds either). -/
inductive BNode where
  | bookmark (b : Bookmark)
  | folder (title : String) (children : List BNode)

/-- ArcNode dataclass of the source.  `parent_id` keeps the raw JSON value
that survived the normalization in `parse_container` (Python stores whatever
`item.get("parentID") or ...` produced there, string or not). -/
structure ArcNode where
  node_id : String
  parent_id : Option Json
  title : Option String
  data : Json
  order : Nat

/-- ExportStats dataclass of the source. -/
structure ExportStats where
  containers_total : Nat
  containers_selected : Nat
  spaces_detected : Nat
  spaces_included : Nat
  folders : Nat
  tabs : Nat
deriving DecidableEq, Repr

mutual

/-- Embedding of `find_list_for_key(obj, key)` (src lines 75-88): first-match
depth-first search for a list directly under `key`; on a mapping the direct
key is checked before descending into the values in insertion order. -/
def find_list_for_key (key : String) : Json → Option (List Json)
  | .obj fs =>
    match alistGet fs key with
    | some (.arr xs) => some xs
    | _ => flk_fields key fs
  | .arr xs => flk_list key xs
  | _ => none

/-- Value-by-value descent of `find_list_for_key` over a mapping's entries. -/
def flk_fields (key : String) : List (String × Json) → Option (List Json)
  | [] => none
  | (_, v) :: rest =>
    match find_list_for_key key v with
    | some found => some found
    | none => flk_fields key rest

/-- Element-by-element descent of `find_list_for_key` over a sequence. -/
def flk_list (key : String) : List Json → Option (List Json)
  | [] => none
  | v :: rest =>
    match find_list_for_key key v with
    | some found => some found
    | none => flk_list key rest

end

mutual

/-- Embedding of `find_containers_anywhere(obj)` (src lines 91-105). -/
def find_containers_anywhere : Json → Option (List Json)
  | .obj fs =>
    match alistGet fs "containers" with
    | some (.arr xs) => some xs
    | _ => fca_fields fs
  | .arr xs => fca_list xs
  | _ => none

/-- Value-by-value descent of `find_containers_anywhere` over a mapping. -/
def fca_fields : List (String × Json) → Option (List Json)
  | [] => none
  | (_, v) :: rest =>
    match find_containers_anywhere v with
    | some found => some found
    | none => fca_fields rest

/-- Element-by-element descent of `find_containers_anywhere` over a sequence. -/
def fca_list : List Json → Option (List Json)
  | [] => none
  | v :: rest =>
    match find_containers_anywhere v with
    | some found => some found
    | none => fca_list rest

end

/-- Embedding of `extract_containers(data)` (src lines 108-117).  The argument
is the top-level mapping (the function's declared contract is
`Dict[str, Any]`); `root = data.get("root", data)`. -/
def extract_containers (data : List (String × Json)) : List Json :=
  let root := (alistGet data "root").getD (.obj data)
  match root with
  | .obj rf =>
    (match alistGet rf "sidebar" with
     | some (.obj sf) =>
       (match alistGet sf "containers" with
        | some (.arr cs) => cs
        | _ => (find_containers_anywhere root).getD [])
     | _ => (find_containers_anywhere root).getD [])
  | _ => (find_containers_anywhere root).getD []

/-- Search loop of `select_containers`: first container whose `items` list is
found and non-empty (`if items:`). -/
def first_with_items : List (Nat × Json) → Option (Nat × Json)
  | [] => none
  | (i, c) :: rest =>
    match find_list_for_key ("items") c with
    | some (x :: xs) => some (i, c)
    | _ => first_with_items rest

/-- Embedding of `select_containers(containers, all_containers)`
(src lines 120-135). -/
def select_containers (containers : List Json) (all_containers : Bool) :
    List (Nat × Json) :=
  match containers with
  | [] => []
  | c0 :: rest =>
    if all_containers then (c0 :: rest).enum
    else
      let pick1 :=
        match (c0 :: rest)[1]? with
        | some c1 =>
          (match c1 with
           | .obj _ =>
             (match find_list_for_key ("items") c1 with
              | some (x :: xs) => some (1, c1)
              | _ => none)
           | _ => none)
        | none => none
      match pick1 with
      | some p => [p]
      | none =>
        match first_with_items ((c0 :: rest).enum) with
        | some p => [p]
        | none => [(0, c0)]

/-- Embedding of `is_folder_like(node)` (src lines 138-144). -/
def is_folder_like (node : ArcNode) : Bool :=
  match node.data with
  | .obj fs =>
    alistHasKey fs "list" || alistHasKey fs "tabGroup" || alistHasKey fs "itemContainer"
  | _ => false

/-- First candidate that is a string with non-blank strip, stripped. -/
def first_filled : List (Option Json) → Option String
  | [] => none
  | c :: rest =>
    match c with
    | some (.str s) => if pstrip s = "" then first_filled rest else some (pstrip s)
    | _ => first_filled rest

/-- Embedding of `get_node_title(node, default)` (src lines 147-154). -/
def get_node_title (node : ArcNode) (default : String) : String :=
  let dataCands :=
    match node.data with
    | .obj fs => [alistGet fs "title", alistGet fs "name"]
    | _ => []
  match first_filled ((node.title.map Json.str) :: dataCands) with
  | some t => t
  | none => default

/-- Embedding of `get_tab_info(node)` (src lines 157-169). -/
def get_tab_info (node : ArcNode) : Option Bookmark :=
  match node.data with
  | .obj fs =>
    (match alistGet fs "tab" with
     | some (.obj tab) =>
       (match pyOr (pyOr (alistGet tab "savedURL") (alistGet tab "url"))
           (alistGet tab "URL") with
        | some (.str u) =>
          if pstrip u = "" then none
          else
            some ⟨pstrip
              (match pyOr (pyOr (alistGet tab "savedTitle") (alistGet tab "title"))
                  (node.title.map Json.str) with
               | some (.str t) => if pstrip t = "" then u else t
               | _ => u), pstrip u⟩
        | _ => none)
     | _ => none)
  | _ => none

/-- Embedding of `space_is_pinned(space)` (src lines 172-183). -/
def space_is_pinned (space : List (String × Json)) : Option Bool :=
  let keys := ["isPinned", "pinned", "isPinnedSpace", "is_pinned"]
  let direct := keys.findSome? fun k =>
    match alistGet space k with
    | some (.bool b) => some b
    | _ => none
  match direct with
  | some b => some b
  | none =>
    match alistGet space "data" with
    | some (.obj df) =>
      keys.findSome? fun k =>
        match alistGet df k with
        | some (.bool b) => some b
        | _ => none
    | _ => none

/-- Characters of the needle occur contiguously in the haystack
(Python `pat in hay` on strings). -/
def strContainsSub (hay pat : List Char) : Bool :=
  match hay with
  | [] => pat.isEmpty
  | _ :: t => pat.isPrefixOf hay || strContainsSub t pat

/-- Key matcher closed over by `extract_space_roots` (src lines 236-243). -/
def root_key_matcher (k : String) : Bool :=
  let kl := pyLower k
  strContainsSub kl.data ("itemcontainer").data ||
    kl = "rootid" || kl = "rootids" || kl = "rootitemid" || kl = "rootitemids"

mutual

/-- Embedding of `gather_ids_by_key(obj, match_key)` (src lines 186-200). -/
def gather_ids_by_key (f : String → Bool) : Json → List String
  | .obj fs => gather_fields f fs
  | .arr xs => gather_list f xs
  | _ => []

/-- Entry-by-entry processing of `gather_ids_by_key` on a mapping: matched
keys contribute their string (or list-of-string) values, then dict/list
values are descended into. -/
def gather_fields (f : String → Bool) : List (String × Json) → List String
  | [] => []
  | (k, v) :: rest =>
    (if f k then
      (match v with
       | .str s => [s]
       | .arr xs => xs.filterMap strOf
       | _ => [])
     else []) ++
    (match v with
     | .obj _ => gather_ids_by_key f v
     | .arr _ => gather_ids_by_key f v
     | _ => []) ++
    gather_fields f rest

/-- Element-by-element processing of `gather_ids_by_key` on a sequence. -/
def gather_list (f : String → Bool) : List Json → List String
  | [] => []
  | v :: rest => gather_ids_by_key f v ++ gather_list f rest

end

/-- Keys checked directly by `extract_space_roots` (src lines 205-220). -/
def direct_root_keys : List String :=
  ["itemContainerId", "itemContainerID", "itemContainerIds", "itemContainerIDs",
   "rootItemContainerId", "rootItemContainerID", "rootItemId", "rootItemID",
   "rootItemIds", "rootItemIDs", "rootId", "rootID", "rootIds", "rootIDs"]

/-- Direct-key candidate collection of `extract_space_roots` over one mapping. -/
def collect_direct_ids (m : List (String × Json)) : List String :=
  direct_root_keys.foldl
    (fun acc k =>
      match alistGet m k with
      | some (.str s) => acc ++ [s]
      | some (.arr xs) => acc ++ xs.filterMap strOf
      | _ => acc)
    []

/-- Candidate ids gathered by `extract_space_roots` before filtering: direct
keys on the space, direct keys on its nested `data` mapping, then the
recursive key scan.  The Python code accumulates into a set; the list here
keeps every occurrence and is deduplicated at use. -/
def space_candidate_ids (space : List (String × Json)) : List String :=
  collect_direct_ids space ++
  (match alistGet space "data" with
   | some (.obj df) => collect_direct_ids df
   | _ => []) ++
  gather_ids_by_key root_key_matcher (.obj space)

/-- Order of a node id in the node table (0 for absent ids, which are
filtered out before this is used as a sort key). -/
def order_of (nodes : List (String × ArcNode)) (i : String) : Nat :=
  match alistGet nodes i with
  | some n => n.order
  | none => 0

/-- Embedding of `extract_space_roots(space, nodes)` (src lines 203-247):
candidates are deduplicated, filtered to ids present in the node table and
sorted by the node's positional order (a stable sort, like Python's). -/
def extract_space_roots (space : List (String × Json))
    (nodes : List (String × ArcNode)) : List String :=
  let valid := ((space_candidate_ids space).dedup).filter
    (fun i => alistHasKey nodes i)
  List.insertionSort (fun a b => order_of nodes a ≤ order_of nodes b) valid

/-- Number of node-table keys not yet on the ancestor path: the termination
measure of `build_tree` (the `visiting` set grows inside the table on every
recursive call). -/
def freeCount (nodes : List (String × ArcNode)) (visiting : List String) : Nat :=
  ((nodes.map Prod.fst).filter (fun k => decide (k ∉ visiting))).length

theorem alistGet_mem_keys {α : Type} {l : List (String × α)} {k : String} {v : α}
    (h : alistGet l k = some v) : k ∈ l.map Prod.fst := by
  induction l with
  | nil => simp [alistGet] at h
  | cons p rest ih =>
    rw [alistGet] at h
    by_cases hp : p.1 = k
    · simp [hp]
    · simp [hp] at h
      simp [ih h]

theorem filter_length_lt {α : Type} (p q : α → Bool) (l : List α) (a : α)
    (ha : a ∈ l) (hq : q a = true) (hp : p a = false)
    (hpq : ∀ x, p x = true → q x = true) :
    (l.filter p).length < (l.filter q).length := by
  obtain ⟨s, t, rfl⟩ := List.append_of_mem ha
  have hs := (List.monotone_filter_right s hpq).length_le
  have ht := (List.monotone_filter_right t hpq).length_le
  rw [List.filter_append, List.filter_append, List.filter_cons, List.filter_cons, hq, hp]
  simp only [List.length_append, List.length_cons, if_pos, Bool.false_eq_true, if_false]
  omega

theorem freeCount_cons_lt {nodes : List (String × ArcNode)} {visiting : List String}
    {nid : String} (hmem : nid ∈ nodes.map Prod.fst) (hnv : nid ∉ visiting) :
    freeCount nodes (nid :: visiting) < freeCount nodes visiting := by
  apply filter_length_lt _ _ _ nid hmem
  · simp [hnv]
  · simp
  · intro x hx
    simp only [decide_eq_true_eq] at hx ⊢
    intro hxv
    exact hx (List.mem_cons_of_mem _ hxv)

/-- Sibling deduplication loop shared by `build_tree` (src lines 294-304) and
`build_children_from_ids` (src lines 256-266): a Bookmark whose
`(title, url)` pair is already in `seen` is skipped, a fresh Bookmark records
its pair, Folders always pass through. -/
def dedupChildren : List BNode → List (String × String) → List BNode
  | [], _ => []
  | .bookmark b :: rest, seen =>
    if (b.title, b.url) ∈ seen then dedupChildren rest seen
    else .bookmark b :: dedupChildren rest ((b.title, b.url) :: seen)
  | .folder t cs :: rest, seen => .folder t cs :: dedupChildren rest seen

mutual

/-- Embedding of `build_tree(node_id, nodes, children_map, visiting)`
(src lines 270-306).  The Python function mutates `visiting` in place but
removes its own id on every exit path, so the pure reading is: children are
built with `node_id :: visiting`. -/
def build_tree (nid : String) (nodes : List (String × ArcNode))
    (children_map : List (String × List String)) (visiting : List String) :
    Option BNode :=
  if hvis : nid ∈ visiting then none
  else
    match hn : alistGet nodes nid with
    | none => none
    | some node =>
      match get_tab_info node with
      | some bm => some (.bookmark bm)
      | none =>
        let child_ids := (alistGet children_map nid).getD []
        if !is_folder_like node && child_ids.isEmpty then none
        else
          some (.folder (get_node_title node ("Untitled Folder"))
            (dedupChildren
              (build_forest child_ids nodes children_map (nid :: visiting)) []))
termination_by (freeCount nodes visiting, 0)
decreasing_by
  exact Prod.Lex.left _ _ (freeCount_cons_lt (alistGet_mem_keys hn) hvis)

/-- Child loop of `build_tree`: recurse on each id with the same ancestor
path, keeping the non-absent results in order (deduplication is applied by
the caller, matching the interleaved loop of the source). -/
def build_forest (ids : List String) (nodes : List (String × ArcNode))
    (children_map : List (String × List String)) (visiting : List String) :
    List BNode :=
  match ids with
  | [] => []
  | i :: rest =>
    match build_tree i nodes children_map visiting with
    | none => build_forest rest nodes children_map visiting
    | some c => c :: build_forest rest nodes children_map visiting
termination_by (freeCount nodes visiting, ids.length + 1)
decreasing_by
  all_goals refine Prod.Lex.right _ ?_
  all_goals simp only [List.length_cons]
  all_goals omega

end

/-- Embedding of `build_children_from_ids(node_ids, nodes, children_map)`
(src lines 250-267): every id is expanded with a fresh empty `visiting` set
and the results pass through the same Bookmark deduplication. -/
def build_children_from_ids (ids : List String)
    (nodes : List (String × ArcNode))
    (children_map : List (String × List String)) : List BNode :=
  dedupChildren (build_forest ids nodes children_map []) []

/-- Node-table construction of `parse_container` (src lines 315-337): entries
that are mappings with a non-empty string `id` become `ArcNode`s keyed by id
(later duplicates overwrite), the parent reference is the first truthy of the
three casing variants with an empty or whitespace string normalized to none,
and `order` is the zero-based position in the original items list. -/
def build_node_table (items : List Json) : List (String × ArcNode) :=
  items.enum.foldl
    (fun acc p =>
      match p.2 with
      | .obj fields =>
        (match alistGet fields "id" with
         | some (.str nid) =>
           if nid = "" then acc
           else
             let data :=
               match alistGet fields "data" with
               | some (.obj d) => Json.obj d
               | _ => Json.obj []
             let rawParent :=
               pyOr (pyOr (alistGet fields "parentID") (alistGet fields "parentId"))
                 (alistGet fields "parent_id")
             let parent :=
               match rawParent with
               | some (.str s) => if pstrip s = "" then none else some (Json.str s)
               | v => v
             let title :=
               match alistGet fields "title" with
               | some (.str t) => some t
               | _ => none
             alistInsert acc nid ⟨nid, parent, title, data, p.1⟩
         | _ => acc)
      | _ => acc)
    []

/-- Test `node.parent_id and node.parent_id in nodes` of the source: the
parent value is truthy and is a key of the node table (a non-string value is
never a key of the string-keyed table). -/
def parent_in_table (nodes : List (String × ArcNode)) (p : Option Json) : Bool :=
  otruthy p &&
    (match p with
     | some (.str s) => alistHasKey nodes s
     | _ => false)

/-- Appends a child id under a parent key
(`children_map.setdefault(parent, []).append(child)`). -/
def cmapAdd (m : List (String × List String)) (k v : String) :
    List (String × List String) :=
  match m with
  | [] => [(k, [v])]
  | (k', vs) :: rest =>
    if k' = k then (k, vs ++ [v]) :: rest else (k', vs) :: cmapAdd rest k v

/-- ChildrenIndex construction of `parse_container` (src lines 339-342): one
pass over the node table in insertion order. -/
def build_children_map (nodes : List (String × ArcNode)) :
    List (String × List String) :=
  nodes.foldl
    (fun m p =>
      if parent_in_table nodes p.2.parent_id then
        match p.2.parent_id with
        | some (.str s) => cmapAdd m s p.2.node_id
        | _ => m
      else m)
    []

/-- Root-id list of `parse_container` (src lines 344-349): nodes sorted by
positional order whose parent is falsy or not a key of the table. -/
def container_root_ids (nodes : List (String × ArcNode)) : List String :=
  let ordered := List.insertionSort (fun a b => a.order ≤ b.order)
    (nodes.map Prod.snd)
  (ordered.filter (fun n => !parent_in_table nodes n.parent_id)).map
    (fun n => n.node_id)

/-- Per-space step of the spaces loop in `parse_container` (src lines
359-376): skips non-mapping spaces, spaces explicitly pinned `false` without
the include-unpinned option, spaces with no resolved root ids and spaces
whose expansion is empty; otherwise yields the space folder together with the
root ids it claims. -/
def space_entry (space : Json) (index : Nat)
    (nodes : List (String × ArcNode))
    (children_map : List (String × List String)) (include_unpinned : Bool) :
    Option (BNode × List String) :=
  match space with
  | .obj sp =>
    if space_is_pinned sp = some false && !include_unpinned then none
    else if (extract_space_roots sp nodes).isEmpty then none
    else if (build_children_from_ids (extract_space_roots sp nodes) nodes
        children_map).isEmpty then none
    else
      some (.folder
        (pyStr (((pyOr (pyOr (alistGet sp "title") (alistGet sp "name"))
          (some (.str ("Space " ++ toString (index + 1)))))).getD .null))
        (build_children_from_ids (extract_space_roots sp nodes) nodes children_map),
        extract_space_roots sp nodes)
  | _ => none

/-- Accumulation step of the spaces loop: a skipped space leaves the
accumulator unchanged, an included space appends its folder, claims its root
ids and bumps the included count. -/
def process_spaces_step (nodes : List (String × ArcNode))
    (children_map : List (String × List String)) (include_unpinned : Bool)
    (acc : List BNode × List String × Nat) (p : Nat × Json) :
    List BNode × List String × Nat :=
  match space_entry p.2 p.1 nodes children_map include_unpinned with
  | none => acc
  | some (f, roots) => (acc.1 ++ [f], acc.2.1 ++ roots, acc.2.2 + 1)

/-- Fold of the spaces loop in `parse_container`: collected space folders in
original order, the union of claimed root ids, and the included-space count. -/
def process_spaces (spaces : List Json)
    (nodes : List (String × ArcNode))
    (children_map : List (String × List String)) (include_unpinned : Bool) :
    List BNode × List String × Nat :=
  spaces.enum.foldl (process_spaces_step nodes children_map include_unpinned)
    ([], [], 0)

/-- Synthetic catch-all folder wrapping a container's direct root expansion
(src lines 385-401): one `Arc Export (Container N)` folder when the expansion
is non-empty, nothing otherwise. -/
def container_root_wrap (container_index : Nat) (root_children : List BNode) :
    List BNode :=
  if root_children.isEmpty then []
  else [.folder ("Arc Export (Container " ++ toString (container_index + 1) ++ ")")
    root_children]

/-- Embedding of `parse_container(container, container_index,
include_unpinned)` (src lines 309-403). -/
def parse_container (container : Json) (container_index : Nat)
    (include_unpinned : Bool) : List BNode × Nat × Nat :=
  let items := (find_list_for_key ("items") container).getD []
  let nodes := build_node_table items
  let children_map := build_children_map nodes
  let root_ids := container_root_ids nodes
  let spacesOpt := find_list_for_key ("spaces") container
  let spaces_detected := (spacesOpt.getD []).length
  match spacesOpt with
  | some sl =>
    if sl.isEmpty then
      (container_root_wrap container_index
        (build_children_from_ids root_ids nodes children_map), spaces_detected, 0)
    else
      let folded := process_spaces sl nodes children_map include_unpinned
      if folded.1.isEmpty then
        (container_root_wrap container_index
          (build_children_from_ids root_ids nodes children_map),
         spaces_detected, folded.2.2)
      else
        (folded.1 ++
          build_children_from_ids
            (root_ids.filter (fun i => decide (i ∉ folded.2.1)))
            nodes children_map,
         spaces_detected, folded.2.2)
  | none =>
    (container_root_wrap container_index
      (build_children_from_ids root_ids nodes children_map), spaces_detected, 0)

mutual

/-- Folder/tab counting walk of `count_nodes` (src lines 450-466), returning
`(folders, tabs)`. -/
def count_walk : BNode → Nat × Nat
  | .bookmark _ => (0, 1)
  | .folder _ cs =>
    let p := count_walk_list cs
    (p.1 + 1, p.2)

/-- Counting walk over a list of nodes. -/
def count_walk_list : List BNode → Nat × Nat
  | [] => (0, 0)
  | c :: cs =>
    let a := count_walk c
    let b := count_walk_list cs
    (a.1 + b.1, a.2 + b.2)

end

/-- Embedding of `count_nodes(nodes)` (src lines 450-466). -/
def count_nodes (nodes : List BNode) : Nat × Nat := count_walk_list nodes

/-- Accumulation step of the container loop in `parse_arc_sidebar`: non-dict
containers are skipped, per-container stats accumulate before the emptiness
check, and a container forest is wrapped in a synthetic folder exactly when
several containers were selected under the all-containers option. -/
def sidebar_container_step (include_unpinned : Bool) (all_containers : Bool)
    (selected_count : Nat) (acc : List BNode × Nat × Nat) (p : Nat × Json) :
    List BNode × Nat × Nat :=
  match p.2 with
  | .obj _ =>
    if (parse_container p.2 p.1 include_unpinned).1.isEmpty then
      (acc.1, acc.2.1 + (parse_container p.2 p.1 include_unpinned).2.1,
        acc.2.2 + (parse_container p.2 p.1 include_unpinned).2.2)
    else if all_containers && decide (selected_count > 1) then
      (acc.1 ++
        [.folder ("Arc Export (Container " ++ toString (p.1 + 1) ++ ")")
          (parse_container p.2 p.1 include_unpinned).1],
       acc.2.1 + (parse_container p.2 p.1 include_unpinned).2.1,
       acc.2.2 + (parse_container p.2 p.1 include_unpinned).2.2)
    else
      (acc.1 ++ (parse_container p.2 p.1 include_unpinned).1,
       acc.2.1 + (parse_container p.2 p.1 include_unpinned).2.1,
       acc.2.2 + (parse_container p.2 p.1 include_unpinned).2.2)
  | _ => acc

/-- Embedding of `parse_arc_sidebar(data, include_unpinned, all_containers)`
(src lines 406-447).  The argument is the top-level mapping per the
function's declared contract. -/
def parse_arc_sidebar (data : List (String × Json))
    (include_unpinned : Bool) (all_containers : Bool) :
    List BNode × ExportStats :=
  let containers := extract_containers data
  let selected := select_containers containers all_containers
  let step := selected.foldl
    (sidebar_container_step include_unpinned all_containers selected.length)
    ([], 0, 0)
  let counted := count_nodes step.1
  (step.1,
   ⟨containers.length, selected.length, step.2.1, step.2.2, counted.1, counted.2⟩)

/-- Post-parse outcome decision of `main` (src lines 558-565): once the input
document has been loaded successfully, `main` returns exit code 2 exactly when
the parse produced no nodes ("No exportable items found"), 0 on a successful
write (the I/O around this decision is not modelled). -/
def main_outcome_after_load (data : List (String × Json))
    (include_unpinned : Bool) (all_containers : Bool) : Nat :=
  if (parse_arc_sidebar data include_unpinned all_containers).1.isEmpty then 2
  else 0

/-- Id-annotated mirror of the Folder/Bookmark result tree, used to reason
about which node ids occur along a root-to-leaf path of the recursion. -/
inductive ITree where
  | leaf (nid : String) (b : Bookmark)
  | node (nid : String) (title : String) (children : List ITree)

mutual

/-- Forgets the id annotations of an `ITree`. -/
def eraseITree : ITree → BNode
  | .leaf _ b => .bookmark b
  | .node _ t cs => .folder t (eraseIForest cs)

/-- Forgets the id annotations of a list of `ITree`s. -/
def eraseIForest : List ITree → List BNode
  | [] => []
  | c :: cs => eraseITree c :: eraseIForest cs

end

/-- Deduplication loop on id-annotated trees, mirroring `dedupChildren`. -/
def idedup : List ITree → List (String × String) → List ITree
  | [], _ => []
  | .leaf i b :: rest, seen =>
    if (b.title, b.url) ∈ seen then idedup rest seen
    else .leaf i b :: idedup rest ((b.title, b.url) :: seen)
  | .node i t cs :: rest, seen => .node i t cs :: idedup rest seen

mutual

/-- Mirror of `build_tree` that returns the id-annotated result tree; the
guards and recursion are identical (see `build_tree_eq_erase_itree`). -/
def build_itree (nid : String) (nodes : List (String × ArcNode))
    (children_map : List (String × List String)) (visiting : List String) :
    Option ITree :=
  if hvis : nid ∈ visiting then none
  else
    match hn : alistGet nodes nid with
    | none => none
    | some node =>
      match get_tab_info node with
      | some bm => some (.leaf nid bm)
      | none =>
        let child_ids := (alistGet children_map nid).getD []
        if !is_folder_like node && child_ids.isEmpty then none
        else
          some (.node nid (get_node_title node ("Untitled Folder"))
            (idedup
              (build_iforest child_ids nodes children_map (nid :: visiting)) []))
termination_by (freeCount nodes visiting, 0)
decreasing_by
  exact Prod.Lex.left _ _ (freeCount_cons_lt (alistGet_mem_keys hn) hvis)

/-- Child loop of `build_itree`, mirroring `build_forest`. -/
def build_iforest (ids : List String) (nodes : List (String × ArcNode))
    (children_map : List (String × List String)) (visiting : List String) :
    List ITree :=
  match ids with
  | [] => []
  | i :: rest =>
    match build_itree i nodes children_map visiting with
    | none => build_iforest rest nodes children_map visiting
    | some c => c :: build_iforest rest nodes children_map visiting
termination_by (freeCount nodes visiting, ids.length + 1)
decreasing_by
  all_goals refine Prod.Lex.right _ ?_
  all_goals simp only [List.length_cons]
  all_goals omega

end

mutual

/-- Root-to-leaf id paths of an id-annotated tree. -/
def ipaths : ITree → List (List String)
  | .leaf i _ => [[i]]
  | .node i _ cs =>
    match cs with
    | [] => [[i]]
    | c :: rest => (ipathsList (c :: rest)).map (fun p => i :: p)

/-- Root-to-leaf id paths of every tree in a list. -/
def ipathsList : List ITree → List (List String)
  | [] => []
  | c :: rest => ipaths c ++ ipathsList rest

end

mutual

/-- Height of a result tree (1 for a leaf), bounding the recursion depth. -/
def BNode.height : BNode → Nat
  | .bookmark _ => 1
  | .folder _ cs => 1 + heightList cs

/-- Maximum height over a list of result trees. -/
def heightList : List BNode → Nat
  | [] => 0
  | c :: cs => max c.height (heightList cs)

end

mutual

/-- Every Bookmark leaf occurring anywhere inside a result tree. -/
def bookmarksOf : BNode → List Bookmark
  | .bookmark b => [b]
  | .folder _ cs => bookmarksOfList cs

/-- Every Bookmark leaf occurring anywhere inside a result forest. -/
def bookmarksOfList : List BNode → List Bookmark
  | [] => []
  | c :: cs => bookmarksOf c ++ bookmarksOfList cs

end

/-- First and last characters of a character list are not whitespace. -/
def noEdgeWsChars (l : List Char) : Bool :=
  (match l.head? with
   | some c => !c.isWhitespace
   | none => true) &&
  (match l.getLast? with
   | some c => !c.isWhitespace
   | none => true)

/-- First and last characters of a string are not whitespace (the string has
no leading or trailing whitespace). -/
def noEdgeWs (s : String) : Bool := noEdgeWsChars s.data

/-- Well-formedness of a Bookmark as produced by `get_tab_info`: non-empty
stripped title and url. -/
def goodBookmark (b : Bookmark) : Bool :=
  decide (b.title ≠ "") && decide (b.url ≠ "") && noEdgeWs b.title && noEdgeWs b.url

/-- Test of a result node being a Folder. -/
def isFolderB : BNode → Bool
  | .folder _ _ => true
  | .bookmark _ => false

/-- Deduplication stated the way the specification phrases it: `earlier`
carries the `(title, url)` pair of every earlier-produced sibling Bookmark
(kept or not); a Bookmark equal to an earlier-produced one is dropped,
Folders always pass. -/
def claimDedupAux : List BNode → List (String × String) → List BNode
  | [], _ => []
  | .bookmark b :: rest, earlier =>
    if (b.title, b.url) ∈ earlier then claimDedupAux rest ((b.title, b.url) :: earlier)
    else .bookmark b :: claimDedupAux rest ((b.title, b.url) :: earlier)
  | .folder t cs :: rest, earlier => .folder t cs :: claimDedupAux rest earlier

/-- Sibling deduplication as the specification phrases it, starting with no
earlier-produced siblings. -/
def claimDedup (l : List BNode) : List BNode := claimDedupAux l []

mutual

/-- Decides that no mapping key anywhere in a JSON value is literally named
`containers`. -/
def noContainersKey : Json → Bool
  | .obj fs => noCKFields fs
  | .arr xs => noCKList xs
  | _ => true

/-- Entry list form of `noContainersKey`. -/
def noCKFields : List (String × Json) → Bool
  | [] => true
  | (k, v) :: rest =>
    decide (k ≠ "containers") && noContainersKey v && noCKFields rest

/-- Sequence form of `noContainersKey`. -/
def noCKList : List Json → Bool
  | [] => true
  | v :: rest => noContainersKey v && noCKList rest

end

/-- Exact-path lookup `root["sidebar"]["containers"]` as the specification
describes it: the list at that path, when every step matches. -/
def sidebar_path_list (root : Json) : Option (List Json) :=
  match root with
  | .obj rf =>
    (match alistGet rf "sidebar" with
     | some (.obj sf) =>
       (match alistGet sf "containers" with
        | some (.arr cs) => some cs
        | _ => none)
     | _ => none)
  | _ => none

/-- Structural induction principle for `Json` that exposes the nested lists
through membership. -/
theorem json_induction (P : Json → Prop)
    (h0 : P .null) (h1 : ∀ b, P (.bool b)) (h2 : ∀ n, P (.num n))
    (h3 : ∀ s, P (.str s))
    (harr : ∀ xs, (∀ x ∈ xs, P x) → P (.arr xs))
    (hobj : ∀ fs, (∀ p ∈ fs, P p.2) → P (.obj fs)) : ∀ j, P j
  | .null => h0
  | .bool b => h1 b
  | .num n => h2 n
  | .str s => h3 s
  | .arr xs => harr xs (fun x hx =>
      json_induction P h0 h1 h2 h3 harr hobj x)
  | .obj fs => hobj fs (fun p hp =>
      json_induction P h0 h1 h2 h3 harr hobj p.2)
decreasing_by
  · have := List.sizeOf_lt_of_mem hx
    simp only [Json.arr.sizeOf_spec]
    omega
  · have h1 := List.sizeOf_lt_of_mem hp
    have h2 : sizeOf p.2 < sizeOf p := by
      obtain ⟨a, b⟩ := p
      simp only [Prod.mk.sizeOf_spec]
      omega
    simp only [Json.obj.sizeOf_spec]
    omega

theorem mem_dedupChildren {x : BNode} :
    ∀ {l : List BNode} {seen : List (String × String)},
      x ∈ dedupChildren l seen → x ∈ l := by
  intro l
  induction l with
  | nil => intro seen h; simp [dedupChildren] at h
  | cons c rest ih =>
    intro seen h
    cases c with
    | bookmark b =>
      rw [dedupChildren] at h
      split at h
      · exact List.mem_cons_of_mem _ (ih h)
      · rcases List.mem_cons.mp h with h | h
        · exact h ▸ List.mem_cons_self _ _
        · exact List.mem_cons_of_mem _ (ih h)
    | folder t cs =>
      rw [dedupChildren] at h
      rcases List.mem_cons.mp h with h | h
      · exact h ▸ List.mem_cons_self _ _
      · exact List.mem_cons_of_mem _ (ih h)

theorem erase_idedup :
    ∀ (l : List ITree) (seen : List (String × String)),
      eraseIForest (idedup l seen) = dedupChildren (eraseIForest l) seen := by
  intro l
  induction l with
  | nil => intro seen; rfl
  | cons c rest ih =>
    intro seen
    cases c with
    | leaf i b =>
      rw [idedup]
      split
      next h =>
        rw [ih, eraseIForest, eraseITree, dedupChildren, if_pos h]
      next h =>
        rw [eraseIForest, eraseITree, ih, eraseIForest, eraseITree, dedupChildren,
          if_neg h]
    | node i t cs =>
      rw [idedup, eraseIForest, eraseITree, eraseIForest, eraseITree, dedupChildren, ih]

theorem freeCount_pos {nodes : List (String × ArcNode)} {visiting : List String}
    {nid : String} (hmem : nid ∈ nodes.map Prod.fst) (hnv : nid ∉ visiting) :
    0 < freeCount nodes visiting := by
  have hm : nid ∈ (nodes.map Prod.fst).filter (fun k => decide (k ∉ visiting)) :=
    List.mem_filter.mpr ⟨hmem, by simp [hnv]⟩
  exact List.length_pos.mpr (List.ne_nil_of_mem hm)

theorem build_forest_nil (nodes : List (String × ArcNode))
    (cm : List (String × List String)) (visiting : List String) :
    build_forest [] nodes cm visiting = [] := by
  rw [build_forest.eq_def]

theorem build_forest_cons (i : String) (rest : List String)
    (nodes : List (String × ArcNode)) (cm : List (String × List String))
    (visiting : List String) :
    build_forest (i :: rest) nodes cm visiting =
      (match build_tree i nodes cm visiting with
       | none => build_forest rest nodes cm visiting
       | some c => c :: build_forest rest nodes cm visiting) := by
  rw [build_forest.eq_def]

theorem build_iforest_nil (nodes : List (String × ArcNode))
    (cm : List (String × List String)) (visiting : List String) :
    build_iforest [] nodes cm visiting = [] := by
  rw [build_iforest.eq_def]

theorem build_iforest_cons (i : String) (rest : List String)
    (nodes : List (String × ArcNode)) (cm : List (String × List String))
    (visiting : List String) :
    build_iforest (i :: rest) nodes cm visiting =
      (match build_itree i nodes cm visiting with
       | none => build_iforest rest nodes cm visiting
       | some c => c :: build_iforest rest nodes cm visiting) := by
  rw [build_iforest.eq_def]

theorem build_tree_eq (nid : String) (nodes : List (String × ArcNode))
    (cm : List (String × List String)) (visiting : List String) :
    build_tree nid nodes cm visiting =
      (if nid ∈ visiting then none
       else
        match alistGet nodes nid with
        | none => none
        | some node =>
          (match get_tab_info node with
           | some bm => some (.bookmark bm)
           | none =>
             if !is_folder_like node && ((alistGet cm nid).getD []).isEmpty then none
             else
               some (.folder (get_node_title node ("Untitled Folder"))
                 (dedupChildren
                   (build_forest ((alistGet cm nid).getD []) nodes cm
                     (nid :: visiting)) [])))) := by
  rw [build_tree.eq_def]
  by_cases hvis : nid ∈ visiting
  · simp [hvis]
  · simp only [dif_neg hvis, if_neg hvis]
    cases hn : alistGet nodes nid with
    | none => rfl
    | some node => rfl

theorem build_itree_eq (nid : String) (nodes : List (String × ArcNode))
    (cm : List (String × List String)) (visiting : List String) :
    build_itree nid nodes cm visiting =
      (if nid ∈ visiting then none
       else
        match alistGet nodes nid with
        | none => none
        | some node =>
          (match get_tab_info node with
           | some bm => some (.leaf nid bm)
           | none =>
             if !is_folder_like node && ((alistGet cm nid).getD []).isEmpty then none
             else
               some (.node nid (get_node_title node ("Untitled Folder"))
                 (idedup
                   (build_iforest ((alistGet cm nid).getD []) nodes cm
                     (nid :: visiting)) [])))) := by
  rw [build_itree.eq_def]
  by_cases hvis : nid ∈ visiting
  · simp [hvis]
  · simp only [dif_neg hvis, if_neg hvis]
    cases hn : alistGet nodes nid with
    | none => rfl
    | some node => rfl

theorem build_tree_found {nid : String} {nodes : List (String × ArcNode)}
    (cm : List (String × List String)) {visiting : List String} {node : ArcNode}
    (hvis : nid ∉ visiting) (hn : alistGet nodes nid = some node) :
    build_tree nid nodes cm visiting =
      (match get_tab_info node with
       | some bm => some (.bookmark bm)
       | none =>
         if !is_folder_like node && ((alistGet cm nid).getD []).isEmpty then none
         else
           some (.folder (get_node_title node ("Untitled Folder"))
             (dedupChildren
               (build_forest ((alistGet cm nid).getD []) nodes cm
                 (nid :: visiting)) []))) := by
  rw [build_tree_eq, if_neg hvis, hn]

theorem build_tree_tab {nid : String} {nodes : List (String × ArcNode)}
    (cm : List (String × List String)) {visiting : List String} {node : ArcNode}
    {bm : Bookmark} (hvis : nid ∉ visiting) (hn : alistGet nodes nid = some node)
    (ht : get_tab_info node = some bm) :
    build_tree nid nodes cm visiting = some (.bookmark bm) := by
  rw [build_tree_found cm hvis hn, ht]

theorem build_tree_nontab {nid : String} {nodes : List (String × ArcNode)}
    (cm : List (String × List String)) {visiting : List String} {node : ArcNode}
    (hvis : nid ∉ visiting) (hn : alistGet nodes nid = some node)
    (ht : get_tab_info node = none) :
    build_tree nid nodes cm visiting =
      (if !is_folder_like node && ((alistGet cm nid).getD []).isEmpty then none
       else
         some (.folder (get_node_title node ("Untitled Folder"))
           (dedupChildren
             (build_forest ((alistGet cm nid).getD []) nodes cm
               (nid :: visiting)) []))) := by
  rw [build_tree_found cm hvis hn, ht]

theorem build_itree_found {nid : String} {nodes : List (String × ArcNode)}
    (cm : List (String × List String)) {visiting : List String} {node : ArcNode}
    (hvis : nid ∉ visiting) (hn : alistGet nodes nid = some node) :
    build_itree nid nodes cm visiting =
      (match get_tab_info node with
       | some bm => some (.leaf nid bm)
       | none =>
         if !is_folder_like node && ((alistGet cm nid).getD []).isEmpty then none
         else
           some (.node nid (get_node_title node ("Untitled Folder"))
             (idedup
               (build_iforest ((alistGet cm nid).getD []) nodes cm
                 (nid :: visiting)) []))) := by
  rw [build_itree_eq, if_neg hvis, hn]

theorem build_itree_tab {nid : String} {nodes : List (String × ArcNode)}
    (cm : List (String × List String)) {visiting : List String} {node : ArcNode}
    {bm : Bookmark} (hvis : nid ∉ visiting) (hn : alistGet nodes nid = some node)
    (ht : get_tab_info node = some bm) :
    build_itree nid nodes cm visiting = some (.leaf nid bm) := by
  rw [build_itree_found cm hvis hn, ht]

theorem build_itree_nontab {nid : String} {nodes : List (String × ArcNode)}
    (cm : List (String × List String)) {visiting : List String} {node : ArcNode}
    (hvis : nid ∉ visiting) (hn : alistGet nodes nid = some node)
    (ht : get_tab_info node = none) :
    build_itree nid nodes cm visiting =
      (if !is_folder_like node && ((alistGet cm nid).getD []).isEmpty then none
       else
         some (.node nid (get_node_title node ("Untitled Folder"))
           (idedup
             (build_iforest ((alistGet cm nid).getD []) nodes cm
               (nid :: visiting)) []))) := by
  rw [build_itree_found cm hvis hn, ht]

theorem build_tree_vis {nid : String} (nodes : List (String × ArcNode))
    (cm : List (String × List String)) {visiting : List String}
    (hvis : nid ∈ visiting) : build_tree nid nodes cm visiting = none := by
  rw [build_tree_eq, if_pos hvis]

theorem build_itree_vis {nid : String} (nodes : List (String × ArcNode))
    (cm : List (String × List String)) {visiting : List String}
    (hvis : nid ∈ visiting) : build_itree nid nodes cm visiting = none := by
  rw [build_itree_eq, if_pos hvis]

theorem build_tree_missing {nid : String} {nodes : List (String × ArcNode)}
    (cm : List (String × List String)) {visiting : List String}
    (hvis : nid ∉ visiting) (hn : alistGet nodes nid = none) :
    build_tree nid nodes cm visiting = none := by
  rw [build_tree_eq, if_neg hvis, hn]

theorem build_itree_missing {nid : String} {nodes : List (String × ArcNode)}
    (cm : List (String × List String)) {visiting : List String}
    (hvis : nid ∉ visiting) (hn : alistGet nodes nid = none) :
    build_itree nid nodes cm visiting = none := by
  rw [build_itree_eq, if_neg hvis, hn]

theorem build_erase_level (nodes : List (String × ArcNode))
    (cm : List (String × List String)) :
    ∀ n : Nat, ∀ visiting : List String, freeCount nodes visiting ≤ n →
      (∀ nid, Option.map eraseITree (build_itree nid nodes cm visiting) =
        build_tree nid nodes cm visiting) ∧
      (∀ ids, eraseIForest (build_iforest ids nodes cm visiting) =
        build_forest ids nodes cm visiting) := by
  intro n
  induction n with
  | zero =>
    intro visiting hfc
    have htree : ∀ nid, Option.map eraseITree (build_itree nid nodes cm visiting) =
        build_tree nid nodes cm visiting := by
      intro nid
      by_cases hvis : nid ∈ visiting
      · rw [build_itree_vis nodes cm hvis, build_tree_vis nodes cm hvis]; rfl
      · cases hn : alistGet nodes nid with
        | none => rw [build_itree_missing cm hvis hn, build_tree_missing cm hvis hn]; rfl
        | some node =>
          exact absurd (freeCount_pos (alistGet_mem_keys hn) hvis) (by omega)
    refine ⟨htree, ?_⟩
    intro ids
    induction ids with
    | nil => rw [build_iforest_nil, build_forest_nil]; rfl
    | cons i rest ihl =>
      rw [build_iforest_cons, build_forest_cons]
      cases hb : build_itree i nodes cm visiting with
      | none =>
        have h2 : build_tree i nodes cm visiting = none := by
          rw [← htree i, hb]; rfl
        rw [h2]
        exact ihl
      | some it =>
        have h2 : build_tree i nodes cm visiting = some (eraseITree it) := by
          rw [← htree i, hb]; rfl
        rw [h2]
        show eraseITree it :: eraseIForest (build_iforest rest nodes cm visiting) =
          eraseITree it :: build_forest rest nodes cm visiting
        rw [ihl]
  | succ n ih =>
    intro visiting hfc
    have htree : ∀ nid, Option.map eraseITree (build_itree nid nodes cm visiting) =
        build_tree nid nodes cm visiting := by
      intro nid
      by_cases hvis : nid ∈ visiting
      · rw [build_itree_vis nodes cm hvis, build_tree_vis nodes cm hvis]; rfl
      · cases hn : alistGet nodes nid with
        | none => rw [build_itree_missing cm hvis hn, build_tree_missing cm hvis hn]; rfl
        | some node =>
          have hle : freeCount nodes (nid :: visiting) ≤ n := by
            have := freeCount_cons_lt (alistGet_mem_keys hn) hvis
            omega
          have hF := (ih (nid :: visiting) hle).2 ((alistGet cm nid).getD [])
          cases ht : get_tab_info node with
          | some bm =>
            rw [build_itree_tab cm hvis hn ht, build_tree_tab cm hvis hn ht]; rfl
          | none =>
            rw [build_itree_nontab cm hvis hn ht, build_tree_nontab cm hvis hn ht]
            by_cases hg : (!is_folder_like node &&
                ((alistGet cm nid).getD []).isEmpty) = true
            · rw [if_pos hg, if_pos hg]; rfl
            · rw [if_neg hg, if_neg hg]
              show some (BNode.folder (get_node_title node ("Untitled Folder"))
                (eraseIForest (idedup (build_iforest ((alistGet cm nid).getD [])
                  nodes cm (nid :: visiting)) []))) = _
              rw [erase_idedup, hF]
    refine ⟨htree, ?_⟩
    intro ids
    induction ids with
    | nil => rw [build_iforest_nil, build_forest_nil]; rfl
    | cons i rest ihl =>
      rw [build_iforest_cons, build_forest_cons]
      cases hb : build_itree i nodes cm visiting with
      | none =>
        have h2 : build_tree i nodes cm visiting = none := by
          rw [← htree i, hb]; rfl
        rw [h2]
        exact ihl
      | some it =>
        have h2 : build_tree i nodes cm visiting = some (eraseITree it) := by
          rw [← htree i, hb]; rfl
        rw [h2]
        show eraseITree it :: eraseIForest (build_iforest rest nodes cm visiting) =
          eraseITree it :: build_forest rest nodes cm visiting
        rw [ihl]

theorem build_tree_eq_erase_itree (nid : String) (nodes : List (String × ArcNode))
    (cm : List (String × List String)) (visiting : List String) :
    build_tree nid nodes cm visiting =
      Option.map eraseITree (build_itree nid nodes cm visiting) :=
  ((build_erase_level nodes cm (freeCount nodes visiting) visiting le_rfl).1 nid).symm

theorem mem_idedup {x : ITree} :
    ∀ {l : List ITree} {seen : List (String × String)},
      x ∈ idedup l seen → x ∈ l := by
  intro l
  induction l with
  | nil => intro seen h; simp [idedup] at h
  | cons c rest ih =>
    intro seen h
    cases c with
    | leaf i b =>
      rw [idedup] at h
      split at h
      · exact List.mem_cons_of_mem _ (ih h)
      · rcases List.mem_cons.mp h with h | h
        · exact h ▸ List.mem_cons_self _ _
        · exact List.mem_cons_of_mem _ (ih h)
    | node i t cs =>
      rw [idedup] at h
      rcases List.mem_cons.mp h with h | h
      · exact h ▸ List.mem_cons_self _ _
      · exact List.mem_cons_of_mem _ (ih h)

theorem mem_ipathsList {q : List String} :
    ∀ {l : List ITree}, q ∈ ipathsList l → ∃ t ∈ l, q ∈ ipaths t := by
  intro l
  induction l with
  | nil => intro h; simp [ipathsList] at h
  | cons c rest ih =>
    intro h
    rw [ipathsList] at h
    rcases List.mem_append.mp h with h | h
    · exact ⟨c, List.mem_cons_self _ _, h⟩
    · obtain ⟨t, ht, hq⟩ := ih h
      exact ⟨t, List.mem_cons_of_mem _ ht, hq⟩

theorem ipaths_node_cases {p : List String} {i : String} {title : String}
    {cs : List ITree} (h : p ∈ ipaths (.node i title cs)) :
    p = [i] ∨ ∃ p', p' ∈ ipathsList cs ∧ p = i :: p' := by
  rw [ipaths.eq_def] at h
  cases cs with
  | nil => left; simpa using h
  | cons c rest =>
    right
    simp only [List.mem_map] at h
    obtain ⟨p', hp', rfl⟩ := h
    exact ⟨p', hp', rfl⟩

theorem ipaths_level (nodes : List (String × ArcNode))
    (cm : List (String × List String)) :
    ∀ n : Nat, ∀ visiting : List String, freeCount nodes visiting ≤ n →
      (∀ nid it, build_itree nid nodes cm visiting = some it →
        ∀ p ∈ ipaths it, p.Nodup ∧ ∀ x ∈ p, x ∉ visiting) ∧
      (∀ ids, ∀ it ∈ build_iforest ids nodes cm visiting,
        ∀ p ∈ ipaths it, p.Nodup ∧ ∀ x ∈ p, x ∉ visiting) := by
  intro n
  induction n with
  | zero =>
    intro visiting hfc
    have hnone : ∀ nid, build_itree nid nodes cm visiting = none := by
      intro nid
      by_cases hvis : nid ∈ visiting
      · exact build_itree_vis nodes cm hvis
      · cases hn : alistGet nodes nid with
        | none => exact build_itree_missing cm hvis hn
        | some node =>
          exact absurd (freeCount_pos (alistGet_mem_keys hn) hvis) (by omega)
    refine ⟨fun nid it hsome => by rw [hnone nid] at hsome; exact absurd hsome (by simp), ?_⟩
    intro ids
    induction ids with
    | nil => intro it hit; rw [build_iforest_nil] at hit; exact absurd hit (by simp)
    | cons i rest ihl =>
      intro it hit
      rw [build_iforest_cons, hnone i] at hit
      exact ihl it hit
  | succ n ih =>
    intro visiting hfc
    have htree : ∀ nid it, build_itree nid nodes cm visiting = some it →
        ∀ p ∈ ipaths it, p.Nodup ∧ ∀ x ∈ p, x ∉ visiting := by
      intro nid it hsome p hp
      by_cases hvis : nid ∈ visiting
      · rw [build_itree_vis nodes cm hvis] at hsome; exact absurd hsome (by simp)
      · cases hn : alistGet nodes nid with
        | none =>
          rw [build_itree_missing cm hvis hn] at hsome; exact absurd hsome (by simp)
        | some node =>
          have hle : freeCount nodes (nid :: visiting) ≤ n := by
            have := freeCount_cons_lt (alistGet_mem_keys hn) hvis
            omega
          cases ht : get_tab_info node with
          | some bm =>
            rw [build_itree_tab cm hvis hn ht] at hsome
            cases hsome
            rw [ipaths] at hp
            simp only [List.mem_singleton] at hp
            subst hp
            exact ⟨List.nodup_singleton _, fun x hx => by
              simp only [List.mem_singleton] at hx; exact hx ▸ hvis⟩
          | none =>
            rw [build_itree_nontab cm hvis hn ht] at hsome
            by_cases hg : (!is_folder_like node &&
                ((alistGet cm nid).getD []).isEmpty) = true
            · rw [if_pos hg] at hsome; exact absurd hsome (by simp)
            · rw [if_neg hg] at hsome
              injection hsome with hsome
              subst hsome
              rcases ipaths_node_cases hp with rfl | ⟨p', hp', rfl⟩
              · exact ⟨List.nodup_singleton _, fun x hx => by
                  simp only [List.mem_singleton] at hx; exact hx ▸ hvis⟩
              · obtain ⟨t, htmem, hpt⟩ := mem_ipathsList hp'
                have htm' := mem_idedup htmem
                have hrec := (ih (nid :: visiting) hle).2
                  ((alistGet cm nid).getD []) t htm' p' hpt
                refine ⟨List.nodup_cons.mpr ⟨?_, hrec.1⟩, ?_⟩
                · intro hmem
                  exact hrec.2 nid hmem (List.mem_cons_self _ _)
                · intro x hx
                  rcases List.mem_cons.mp hx with rfl | hx
                  · exact hvis
                  · intro hxv
                    exact hrec.2 x hx (List.mem_cons_of_mem _ hxv)
    refine ⟨htree, ?_⟩
    intro ids
    induction ids with
    | nil => intro it hit; rw [build_iforest_nil] at hit; exact absurd hit (by simp)
    | cons i rest ihl =>
      intro it hit
      rw [build_iforest_cons] at hit
      cases hb : build_itree i nodes cm visiting with
      | none =>
        rw [hb] at hit
        exact ihl it hit
      | some it' =>
        rw [hb] at hit
        rcases List.mem_cons.mp hit with rfl | hit
        · exact htree i it hb
        · exact ihl it hit

theorem heightList_le {m : Nat} :
    ∀ {l : List BNode}, (∀ x ∈ l, BNode.height x ≤ m) → heightList l ≤ m := by
  intro l
  induction l with
  | nil => intro _; simp [heightList]
  | cons c rest ih =>
    intro h
    rw [heightList]
    exact max_le (h c (List.mem_cons_self _ _))
      (ih fun x hx => h x (List.mem_cons_of_mem _ hx))

theorem height_level (nodes : List (String × ArcNode))
    (cm : List (String × List String)) :
    ∀ n : Nat, ∀ visiting : List String, freeCount nodes visiting ≤ n →
      (∀ nid t, build_tree nid nodes cm visiting = some t →
        BNode.height t ≤ freeCount nodes visiting) ∧
      (∀ ids, ∀ t ∈ build_forest ids nodes cm visiting,
        BNode.height t ≤ freeCount nodes visiting) := by
  intro n
  induction n with
  | zero =>
    intro visiting hfc
    have hnone : ∀ nid, build_tree nid nodes cm visiting = none := by
      intro nid
      by_cases hvis : nid ∈ visiting
      · exact build_tree_vis nodes cm hvis
      · cases hn : alistGet nodes nid with
        | none => exact build_tree_missing cm hvis hn
        | some node =>
          exact absurd (freeCount_pos (alistGet_mem_keys hn) hvis) (by omega)
    refine ⟨fun nid t hsome => by rw [hnone nid] at hsome; exact absurd hsome (by simp), ?_⟩
    intro ids
    induction ids with
    | nil => intro t hit; rw [build_forest_nil] at hit; exact absurd hit (by simp)
    | cons i rest ihl =>
      intro t hit
      rw [build_forest_cons, hnone i] at hit
      exact ihl t hit
  | succ n ih =>
    intro visiting hfc
    have htree : ∀ nid t, build_tree nid nodes cm visiting = some t →
        BNode.height t ≤ freeCount nodes visiting := by
      intro nid t hsome
      by_cases hvis : nid ∈ visiting
      · rw [build_tree_vis nodes cm hvis] at hsome; exact absurd hsome (by simp)
      · cases hn : alistGet nodes nid with
        | none =>
          rw [build_tree_missing cm hvis hn] at hsome; exact absurd hsome (by simp)
        | some node =>
          have hpos := freeCount_pos (alistGet_mem_keys hn) hvis
          have hlt := freeCount_cons_lt (alistGet_mem_keys hn) hvis
          have hle : freeCount nodes (nid :: visiting) ≤ n := by omega
          cases ht : get_tab_info node with
          | some bm =>
            rw [build_tree_tab cm hvis hn ht] at hsome
            cases hsome
            rw [BNode.height]
            omega
          | none =>
            rw [build_tree_nontab cm hvis hn ht] at hsome
            by_cases hg : (!is_folder_like node &&
                ((alistGet cm nid).getD []).isEmpty) = true
            · rw [if_pos hg] at hsome; exact absurd hsome (by simp)
            · rw [if_neg hg] at hsome
              injection hsome with hsome
              subst hsome
              rw [BNode.height]
              have hcs : heightList (dedupChildren
                  (build_forest ((alistGet cm nid).getD []) nodes cm
                    (nid :: visiting)) []) ≤ freeCount nodes (nid :: visiting) := by
                apply heightList_le
                intro x hx
                exact (ih (nid :: visiting) hle).2 ((alistGet cm nid).getD []) x
                  (mem_dedupChildren hx)
              omega
    refine ⟨htree, ?_⟩
    intro ids
    induction ids with
    | nil => intro t hit; rw [build_forest_nil] at hit; exact absurd hit (by simp)
    | cons i rest ihl =>
      intro t hit
      rw [build_forest_cons] at hit
      cases hb : build_tree i nodes cm visiting with
      | none =>
        rw [hb] at hit
        exact ihl t hit
      | some t' =>
        rw [hb] at hit
        rcases List.mem_cons.mp hit with rfl | hit
        · exact htree i t hb
        · exact ihl t hit

theorem head?_dropWhile_not (p : Char → Bool) :
    ∀ (l : List Char) (c : Char), (l.dropWhile p).head? = some c → p c = false := by
  intro l
  induction l with
  | nil => intro c h; simp [List.dropWhile] at h
  | cons a t ih =>
    intro c h
    rw [List.dropWhile_cons] at h
    by_cases hp : p a = true
    · rw [if_pos hp] at h
      exact ih c h
    · rw [if_neg hp] at h
      simp only [List.head?_cons, Option.some.injEq] at h
      subst h
      simpa using hp

theorem noEdgeWs_stripChars (l : List Char) : noEdgeWs ⟨stripChars l⟩ = true := by
  show noEdgeWsChars (stripChars l) = true
  rw [noEdgeWsChars, stripChars]
  cases hl2 : (l.dropWhile Char.isWhitespace).reverse.dropWhile Char.isWhitespace with
  | nil => simp
  | cons c2 t2 =>
    rw [List.head?_reverse, List.getLast?_reverse]
    have hhead : (c2 :: t2).head? = some c2 := rfl
    have hc2 : Char.isWhitespace c2 = false := by
      apply head?_dropWhile_not Char.isWhitespace
        ((l.dropWhile Char.isWhitespace).reverse)
      rw [hl2]; rfl
    have hl1ne : l.dropWhile Char.isWhitespace ≠ [] := by
      intro hnil
      rw [hnil] at hl2
      simp [List.dropWhile] at hl2
    have hlast : (c2 :: t2).getLast? =
        ((l.dropWhile Char.isWhitespace).reverse).getLast? := by
      rw [← hl2]
      conv_rhs =>
        rw [← List.takeWhile_append_dropWhile
          (p := Char.isWhitespace) (l := (l.dropWhile Char.isWhitespace).reverse)]
      rw [List.getLast?_append_of_ne_nil]
      rw [hl2]
      simp
    rw [hlast, List.getLast?_reverse]
    cases hl1 : l.dropWhile Char.isWhitespace with
    | nil => exact absurd hl1 hl1ne
    | cons c1 t1 =>
      have hc1 : Char.isWhitespace c1 = false := by
        apply head?_dropWhile_not Char.isWhitespace l
        rw [hl1]; rfl
      simp [hc1, hc2]

theorem noEdgeWs_pstrip (s : String) : noEdgeWs (pstrip s) = true :=
  noEdgeWs_stripChars s.data

theorem pyOr_cases (a b : Option Json) : pyOr a b = a ∨ pyOr a b = b := by
  rw [pyOr]
  by_cases h : otruthy a = true
  · left; rw [if_pos h]
  · right; rw [if_neg h]

theorem get_tab_info_char {node : ArcNode} {b : Bookmark}
    (h : get_tab_info node = some b) :
    ∃ fs tab u, node.data = .obj fs ∧ alistGet fs "tab" = some (.obj tab) ∧
      pyOr (pyOr (alistGet tab "savedURL") (alistGet tab "url"))
        (alistGet tab "URL") = some (.str u) ∧
      pstrip u ≠ "" ∧ b.url = pstrip u ∧
      ((∃ t, pyOr (pyOr (alistGet tab "savedTitle") (alistGet tab "title"))
          (node.title.map Json.str) = some (.str t) ∧ pstrip t ≠ "" ∧
          b.title = pstrip t) ∨
        b.title = pstrip u) := by
  rw [get_tab_info] at h
  split at h
  case _ fs hfs =>
    split at h
    case _ tab htab =>
      split at h
      case _ u hurl =>
        split at h
        · exact absurd h (by simp)
        case _ hune =>
          refine ⟨fs, tab, u, hfs, htab, hurl, hune, ?_⟩
          split at h
          case _ t htitle =>
            split at h
            · -- blank chain title: falls back to the url
              injection h with h
              subst h
              exact ⟨rfl, Or.inr rfl⟩
            case _ htne =>
              injection h with h
              subst h
              exact ⟨rfl, Or.inl ⟨t, htitle, htne, rfl⟩⟩
          case _ hother =>
            injection h with h
            subst h
            exact ⟨rfl, Or.inr rfl⟩
      all_goals exact absurd h (by simp)
    all_goals exact absurd h (by simp)
  all_goals exact absurd h (by simp)

theorem get_tab_info_good {node : ArcNode} {b : Bookmark}
    (h : get_tab_info node = some b) : goodBookmark b = true := by
  obtain ⟨fs, tab, u, _, _, _, hune, hburl, htitle⟩ := get_tab_info_char h
  rw [goodBookmark]
  have hu : b.url ≠ "" := hburl ▸ hune
  have hnu : noEdgeWs b.url = true := by rw [hburl]; exact noEdgeWs_pstrip u
  rcases htitle with ⟨t, _, htne, hbt⟩ | hbt
  · have ht : b.title ≠ "" := hbt ▸ htne
    have hnt : noEdgeWs b.title = true := by rw [hbt]; exact noEdgeWs_pstrip t
    simp [ht, hu, hnt, hnu]
  · have ht : b.title ≠ "" := hbt ▸ hune
    have hnt : noEdgeWs b.title = true := by rw [hbt]; exact noEdgeWs_pstrip u
    simp [ht, hu, hnt, hnu]

theorem bookmarksOfList_append (l1 l2 : List BNode) :
    bookmarksOfList (l1 ++ l2) = bookmarksOfList l1 ++ bookmarksOfList l2 := by
  induction l1 with
  | nil => simp [bookmarksOfList]
  | cons c rest ih =>
    rw [List.cons_append, bookmarksOfList, bookmarksOfList, ih, List.append_assoc]

theorem mem_bookmarksOfList {b : Bookmark} :
    ∀ {l : List BNode}, b ∈ bookmarksOfList l → ∃ t ∈ l, b ∈ bookmarksOf t := by
  intro l
  induction l with
  | nil => intro h; simp [bookmarksOfList] at h
  | cons c rest ih =>
    intro h
    rw [bookmarksOfList] at h
    rcases List.mem_append.mp h with h | h
    · exact ⟨c, List.mem_cons_self _ _, h⟩
    · obtain ⟨t, ht, hb⟩ := ih h
      exact ⟨t, List.mem_cons_of_mem _ ht, hb⟩

theorem mem_bookmarksOfList_of_mem {b : Bookmark} {t : BNode} {l : List BNode}
    (ht : t ∈ l) (hb : b ∈ bookmarksOf t) : b ∈ bookmarksOfList l := by
  induction l with
  | nil => simp at ht
  | cons c rest ih =>
    rw [bookmarksOfList]
    rcases List.mem_cons.mp ht with rfl | ht
    · exact List.mem_append.mpr (Or.inl hb)
    · exact List.mem_append.mpr (Or.inr (ih ht))

/-- Every Bookmark anywhere in a forest is well formed. -/
def GoodF (l : List BNode) : Prop :=
  ∀ b ∈ bookmarksOfList l, goodBookmark b = true

theorem GoodF_iff (l : List BNode) :
    GoodF l ↔ ∀ t ∈ l, ∀ b ∈ bookmarksOf t, goodBookmark b = true := by
  constructor
  · intro h t ht b hb
    exact h b (mem_bookmarksOfList_of_mem ht hb)
  · intro h b hb
    obtain ⟨t, ht, hb⟩ := mem_bookmarksOfList hb
    exact h t ht b hb

theorem GoodF_append {l1 l2 : List BNode} (h1 : GoodF l1) (h2 : GoodF l2) :
    GoodF (l1 ++ l2) := by
  intro b hb
  rw [bookmarksOfList_append] at hb
  rcases List.mem_append.mp hb with hb | hb
  · exact h1 b hb
  · exact h2 b hb

theorem good_level (nodes : List (String × ArcNode))
    (cm : List (String × List String)) :
    ∀ n : Nat, ∀ visiting : List String, freeCount nodes visiting ≤ n →
      (∀ nid t, build_tree nid nodes cm visiting = some t →
        ∀ b ∈ bookmarksOf t, goodBookmark b = true) ∧
      (∀ ids, ∀ t ∈ build_forest ids nodes cm visiting,
        ∀ b ∈ bookmarksOf t, goodBookmark b = true) := by
  intro n
  induction n with
  | zero =>
    intro visiting hfc
    have hnone : ∀ nid, build_tree nid nodes cm visiting = none := by
      intro nid
      by_cases hvis : nid ∈ visiting
      · exact build_tree_vis nodes cm hvis
      · cases hn : alistGet nodes nid with
        | none => exact build_tree_missing cm hvis hn
        | some node =>
          exact absurd (freeCount_pos (alistGet_mem_keys hn) hvis) (by omega)
    refine ⟨fun nid t hsome => by rw [hnone nid] at hsome; exact absurd hsome (by simp), ?_⟩
    intro ids
    induction ids with
    | nil => intro t hit; rw [build_forest_nil] at hit; exact absurd hit (by simp)
    | cons i rest ihl =>
      intro t hit
      rw [build_forest_cons, hnone i] at hit
      exact ihl t hit
  | succ n ih =>
    intro visiting hfc
    have htree : ∀ nid t, build_tree nid nodes cm visiting = some t →
        ∀ b ∈ bookmarksOf t, goodBookmark b = true := by
      intro nid t hsome b hb
      by_cases hvis : nid ∈ visiting
      · rw [build_tree_vis nodes cm hvis] at hsome; exact absurd hsome (by simp)
      · cases hn : alistGet nodes nid with
        | none =>
          rw [build_tree_missing cm hvis hn] at hsome; exact absurd hsome (by simp)
        | some node =>
          have hle : freeCount nodes (nid :: visiting) ≤ n := by
            have := freeCount_cons_lt (alistGet_mem_keys hn) hvis
            omega
          cases ht : get_tab_info node with
          | some bm =>
            rw [build_tree_tab cm hvis hn ht] at hsome
            cases hsome
            rw [bookmarksOf] at hb
            simp only [List.mem_singleton] at hb
            subst hb
            exact get_tab_info_good ht
          | none =>
            rw [build_tree_nontab cm hvis hn ht] at hsome
            by_cases hg : (!is_folder_like node &&
                ((alistGet cm nid).getD []).isEmpty) = true
            · rw [if_pos hg] at hsome; exact absurd hsome (by simp)
            · rw [if_neg hg] at hsome
              injection hsome with hsome
              subst hsome
              rw [bookmarksOf] at hb
              obtain ⟨t', ht', hb'⟩ := mem_bookmarksOfList hb
              exact (ih (nid :: visiting) hle).2 ((alistGet cm nid).getD []) t'
                (mem_dedupChildren ht') b hb'
    refine ⟨htree, ?_⟩
    intro ids
    induction ids with
    | nil => intro t hit; rw [build_forest_nil] at hit; exact absurd hit (by simp)
    | cons i rest ihl =>
      intro t hit
      rw [build_forest_cons] at hit
      cases hb : build_tree i nodes cm visiting with
      | none =>
        rw [hb] at hit
        exact ihl t hit
      | some t' =>
        rw [hb] at hit
        rcases List.mem_cons.mp hit with rfl | hit
        · exact htree i t hb
        · exact ihl t hit

theorem GoodF_bcfi (ids : List String) (nodes : List (String × ArcNode))
    (cm : List (String × List String)) :
    GoodF (build_children_from_ids ids nodes cm) := by
  rw [GoodF_iff]
  intro t ht b hb
  rw [build_children_from_ids] at ht
  exact (good_level nodes cm (freeCount nodes []) [] le_rfl).2 ids t
    (mem_dedupChildren ht) b hb

theorem GoodF_root_wrap {rc : List BNode} (h : GoodF rc) (i : Nat) :
    GoodF (container_root_wrap i rc) := by
  rw [container_root_wrap]
  split
  · intro b hb; simp [bookmarksOfList] at hb
  · intro b hb
    rw [bookmarksOfList, bookmarksOf] at hb
    rcases List.mem_append.mp hb with hb | hb
    · exact h b hb
    · exact absurd hb (by simp [bookmarksOfList])

theorem GoodF_space_entry {sp : Json} {i : Nat} {nodes : List (String × ArcNode)}
    {cm : List (String × List String)} {inc : Bool} {f : BNode} {r : List String}
    (h : space_entry sp i nodes cm inc = some (f, r)) :
    ∀ b ∈ bookmarksOf f, goodBookmark b = true := by
  cases sp
  case obj spf =>
    rw [space_entry] at h
    split at h
    · exact absurd h (by simp)
    split at h
    · exact absurd h (by simp)
    split at h
    · exact absurd h (by simp)
    injection h with h
    injection h with h1 h2
    subst h1
    intro b hb
    rw [bookmarksOf] at hb
    exact GoodF_bcfi (extract_space_roots spf nodes) nodes cm b hb
  all_goals simp [space_entry] at h

theorem GoodF_single_folder {cn : List BNode} (h : GoodF cn) (t : String) :
    GoodF [BNode.folder t cn] := by
  intro b hb
  rw [bookmarksOfList, bookmarksOf] at hb
  rcases List.mem_append.mp hb with hb | hb
  · exact h b hb
  · exact absurd hb (by simp [bookmarksOfList])

theorem GoodF_process_fold (nodes : List (String × ArcNode))
    (cm : List (String × List String)) (inc : Bool) :
    ∀ (el : List (Nat × Json)) (acc : List BNode × List String × Nat),
      GoodF acc.1 →
      GoodF ((el.foldl (process_spaces_step nodes cm inc) acc).1) := by
  intro el
  induction el with
  | nil => intro acc h; exact h
  | cons p rest ih =>
    intro acc hacc
    rw [List.foldl_cons]
    apply ih
    rw [process_spaces_step]
    cases hse : space_entry p.2 p.1 nodes cm inc with
    | none => exact hacc
    | some pr =>
      obtain ⟨f, roots⟩ := pr
      show GoodF (acc.1 ++ [f])
      apply GoodF_append hacc
      intro b hb
      rw [bookmarksOfList] at hb
      rcases List.mem_append.mp hb with hb | hb
      · exact GoodF_space_entry hse b hb
      · exact absurd hb (by simp [bookmarksOfList])

theorem parse_container_eq (container : Json) (container_index : Nat)
    (include_unpinned : Bool) :
    parse_container container container_index include_unpinned =
      (match find_list_for_key ("spaces") container with
       | some sl =>
         if sl.isEmpty then
           (container_root_wrap container_index
             (build_children_from_ids
               (container_root_ids (build_node_table
                 ((find_list_for_key ("items") container).getD [])))
               (build_node_table ((find_list_for_key ("items") container).getD []))
               (build_children_map (build_node_table
                 ((find_list_for_key ("items") container).getD [])))),
            ((find_list_for_key ("spaces") container).getD []).length, 0)
         else
           if (process_spaces sl
               (build_node_table ((find_list_for_key ("items") container).getD []))
               (build_children_map (build_node_table
                 ((find_list_for_key ("items") container).getD [])))
               include_unpinned).1.isEmpty then
             (container_root_wrap container_index
               (build_children_from_ids
                 (container_root_ids (build_node_table
                   ((find_list_for_key ("items") container).getD [])))
                 (build_node_table ((find_list_for_key ("items") container).getD []))
                 (build_children_map (build_node_table
                   ((find_list_for_key ("items") container).getD [])))),
              ((find_list_for_key ("spaces") container).getD []).length,
              (process_spaces sl
                (build_node_table ((find_list_for_key ("items") container).getD []))
                (build_children_map (build_node_table
                  ((find_list_for_key ("items") container).getD [])))
                include_unpinned).2.2)
           else
             ((process_spaces sl
                 (build_node_table ((find_list_for_key ("items") container).getD []))
                 (build_children_map (build_node_table
                   ((find_list_for_key ("items") container).getD [])))
                 include_unpinned).1 ++
               build_children_from_ids
                 ((container_root_ids (build_node_table
                   ((find_list_for_key ("items") container).getD []))).filter
                   (fun i => decide (i ∉ (process_spaces sl
                     (build_node_table
                       ((find_list_for_key ("items") container).getD []))
                     (build_children_map (build_node_table
                       ((find_list_for_key ("items") container).getD [])))
                     include_unpinned).2.1)))
                 (build_node_table ((find_list_for_key ("items") container).getD []))
                 (build_children_map (build_node_table
                   ((find_list_for_key ("items") container).getD []))),
              ((find_list_for_key ("spaces") container).getD []).length,
              (process_spaces sl
                (build_node_table ((find_list_for_key ("items") container).getD []))
                (build_children_map (build_node_table
                  ((find_list_for_key ("items") container).getD [])))
                include_unpinned).2.2)
       | none =>
         (container_root_wrap container_index
           (build_children_from_ids
             (container_root_ids (build_node_table
               ((find_list_for_key ("items") container).getD [])))
             (build_node_table ((find_list_for_key ("items") container).getD []))
             (build_children_map (build_node_table
               ((find_list_for_key ("items") container).getD [])))),
          ((find_list_for_key ("spaces") container).getD []).length, 0)) := by
  rw [parse_container]

theorem GoodF_parse_container (container : Json) (i : Nat) (inc : Bool) :
    GoodF (parse_container container i inc).1 := by
  rw [parse_container_eq]
  split
  · split
    · exact GoodF_root_wrap (GoodF_bcfi _ _ _) i
    split
    · exact GoodF_root_wrap (GoodF_bcfi _ _ _) i
    · apply GoodF_append
      · exact GoodF_process_fold _ _ _ _ _ (by intro b hb; simp [bookmarksOfList] at hb)
      · exact GoodF_bcfi _ _ _
  · exact GoodF_root_wrap (GoodF_bcfi _ _ _) i

theorem GoodF_sidebar_fold (inc allc : Bool) (selc : Nat) :
    ∀ (el : List (Nat × Json)) (acc : List BNode × Nat × Nat),
      GoodF acc.1 →
      GoodF ((el.foldl (sidebar_container_step inc allc selc) acc).1) := by
  intro el
  induction el with
  | nil => intro acc h; exact h
  | cons p rest ih =>
    intro acc hacc
    rw [List.foldl_cons]
    apply ih
    obtain ⟨pi, pj⟩ := p
    cases pj with
    | obj cf =>
      show GoodF (if (parse_container (Json.obj cf) pi inc).1.isEmpty = true then
          (acc.1, acc.2.1 + (parse_container (Json.obj cf) pi inc).2.1,
            acc.2.2 + (parse_container (Json.obj cf) pi inc).2.2)
        else if (allc && decide (selc > 1)) = true then
          (acc.1 ++
            [.folder ("Arc Export (Container " ++ toString (pi + 1) ++ ")")
              (parse_container (Json.obj cf) pi inc).1],
           acc.2.1 + (parse_container (Json.obj cf) pi inc).2.1,
           acc.2.2 + (parse_container (Json.obj cf) pi inc).2.2)
        else
          (acc.1 ++ (parse_container (Json.obj cf) pi inc).1,
           acc.2.1 + (parse_container (Json.obj cf) pi inc).2.1,
           acc.2.2 + (parse_container (Json.obj cf) pi inc).2.2)).1
      split
      · exact hacc
      split
      · show GoodF (acc.1 ++ _)
        exact GoodF_append hacc
          (GoodF_single_folder (GoodF_parse_container _ _ _) _)
      · show GoodF (acc.1 ++ _)
        exact GoodF_append hacc (GoodF_parse_container _ _ _)
    | null => exact hacc
    | bool b => exact hacc
    | num n => exact hacc
    | str s => exact hacc
    | arr xs => exact hacc

theorem GoodF_parse_arc_sidebar (data : List (String × Json))
    (inc allc : Bool) : GoodF (parse_arc_sidebar data inc allc).1 := by
  rw [parse_arc_sidebar]
  exact GoodF_sidebar_fold _ _ _ _ _ (by intro b hb; simp [bookmarksOfList] at hb)

theorem dedupChildren_eq_claimAux :
    ∀ (l : List BNode) (s1 s2 : List (String × String)),
      (∀ k, k ∈ s1 ↔ k ∈ s2) → dedupChildren l s1 = claimDedupAux l s2 := by
  intro l
  induction l with
  | nil => intro s1 s2 h; rfl
  | cons c rest ih =>
    intro s1 s2 h
    cases c with
    | bookmark b =>
      rw [dedupChildren, claimDedupAux]
      by_cases hk : (b.title, b.url) ∈ s1
      · rw [if_pos hk, if_pos ((h _).mp hk)]
        apply ih
        intro k
        constructor
        · intro hks
          exact List.mem_cons_of_mem _ ((h k).mp hks)
        · intro hks
          rcases List.mem_cons.mp hks with rfl | hks
          · exact hk
          · exact (h k).mpr hks
      · rw [if_neg hk, if_neg (fun hc => hk ((h _).mpr hc))]
        rw [ih ((b.title, b.url) :: s1) ((b.title, b.url) :: s2) ?_]
        intro k
        simp only [List.mem_cons]
        exact or_congr Iff.rfl (h k)
    | folder t cs =>
      rw [dedupChildren, claimDedupAux, ih s1 s2 h]

theorem dedupChildren_eq_claimDedup (l : List BNode) :
    dedupChildren l [] = claimDedup l :=
  dedupChildren_eq_claimAux l [] [] (fun k => Iff.rfl)

theorem dedupChildren_filter_folders :
    ∀ (l : List BNode) (seen : List (String × String)),
      (dedupChildren l seen).filter isFolderB = l.filter isFolderB := by
  intro l
  induction l with
  | nil => intro seen; rfl
  | cons c rest ih =>
    intro seen
    cases c with
    | bookmark b =>
      rw [dedupChildren]
      split
      · rw [ih, List.filter_cons]
        simp [isFolderB]
      · rw [List.filter_cons, List.filter_cons]
        simp only [isFolderB, Bool.false_eq_true, if_false]
        exact ih _
    | folder t cs =>
      rw [dedupChildren, List.filter_cons, List.filter_cons]
      simp only [isFolderB, if_pos rfl]
      rw [ih]

theorem mem_dedupChildren_of_mem {b : Bookmark} :
    ∀ {l : List BNode} {seen : List (String × String)},
      BNode.bookmark b ∈ l → (b.title, b.url) ∉ seen →
      BNode.bookmark b ∈ dedupChildren l seen := by
  intro l
  induction l with
  | nil => intro seen h _; simp at h
  | cons c rest ih =>
    intro seen hmem hns
    cases c with
    | bookmark b' =>
      rw [dedupChildren]
      by_cases hk : (b'.title, b'.url) ∈ seen
      · rw [if_pos hk]
        rcases List.mem_cons.mp hmem with heq | hmem
        · injection heq with heq
          subst heq
          exact absurd hk hns
        · exact ih hmem hns
      · rw [if_neg hk]
        rcases List.mem_cons.mp hmem with heq | hmem
        · injection heq with heq
          subst heq
          exact List.mem_cons_self _ _
        · by_cases hbb : b' = b
          · subst hbb
            exact List.mem_cons_self _ _
          · apply List.mem_cons_of_mem
            apply ih hmem
            intro hc
            rcases List.mem_cons.mp hc with hc | hc
            · apply hbb
              have h1 : b'.title = b.title := congrArg Prod.fst hc.symm
              have h2 : b'.url = b.url := congrArg Prod.snd hc.symm
              cases b; cases b'
              simp only [Bookmark.mk.injEq]
              exact ⟨h1, h2⟩
            · exact hns hc
    | folder t cs =>
      rw [dedupChildren]
      rcases List.mem_cons.mp hmem with heq | hmem
      · exact absurd heq (by simp)
      · exact List.mem_cons_of_mem _ (ih hmem hns)

theorem build_tree_folder_inv {nid : String} {nodes : List (String × ArcNode)}
    {cm : List (String × List String)} {visiting : List String}
    {t : String} {cs : List BNode}
    (h : build_tree nid nodes cm visiting = some (.folder t cs)) :
    ∃ node, alistGet nodes nid = some node ∧
      t = get_node_title node ("Untitled Folder") ∧
      cs = dedupChildren
        (build_forest ((alistGet cm nid).getD []) nodes cm (nid :: visiting)) [] := by
  by_cases hvis : nid ∈ visiting
  · rw [build_tree_vis nodes cm hvis] at h; exact absurd h (by simp)
  · cases hn : alistGet nodes nid with
    | none => rw [build_tree_missing cm hvis hn] at h; exact absurd h (by simp)
    | some node =>
      cases ht : get_tab_info node with
      | some bm =>
        rw [build_tree_tab cm hvis hn ht] at h
        exact absurd h (by simp)
      | none =>
        rw [build_tree_nontab cm hvis hn ht] at h
        by_cases hg : (!is_folder_like node &&
            ((alistGet cm nid).getD []).isEmpty) = true
        · rw [if_pos hg] at h; exact absurd h (by simp)
        · rw [if_neg hg] at h
          injection h with h
          injection h with h1 h2
          exact ⟨node, rfl, h1.symm, h2.symm⟩

theorem mem_alistInsert {α : Type} {q : String × α} :
    ∀ {l : List (String × α)} {k : String} {v : α},
      q ∈ alistInsert l k v → q = (k, v) ∨ q ∈ l := by
  intro l
  induction l with
  | nil => intro k v h; rw [alistInsert] at h; simpa using h
  | cons p rest ih =>
    intro k v h
    rw [alistInsert] at h
    split at h
    · rcases List.mem_cons.mp h with h | h
      · exact Or.inl h
      · exact Or.inr (List.mem_cons_of_mem _ h)
    · rcases List.mem_cons.mp h with h | h
      · exact Or.inr (h ▸ List.mem_cons_self _ _)
      · rcases ih h with h | h
        · exact Or.inl h
        · exact Or.inr (List.mem_cons_of_mem _ h)

theorem keys_alistInsert {α : Type} :
    ∀ (l : List (String × α)) (k : String) (v : α),
      (alistInsert l k v).map Prod.fst =
        (if k ∈ l.map Prod.fst then l.map Prod.fst else l.map Prod.fst ++ [k]) := by
  intro l
  induction l with
  | nil => intro k v; simp [alistInsert]
  | cons p rest ih =>
    intro k v
    rw [alistInsert]
    split
    next heq =>
      subst heq
      simp
    next hne =>
      simp only [List.map_cons, List.mem_cons]
      rw [ih]
      by_cases hk : k ∈ rest.map Prod.fst
      · rw [if_pos hk, if_pos (Or.inr hk)]
      · rw [if_neg hk, if_neg (by
          intro hc
          rcases hc with hc | hc
          · exact hne hc.symm
          · exact hk hc)]
        simp

theorem keys_alistInsert_nodup {α : Type} {l : List (String × α)} {k : String}
    {v : α} (h : (l.map Prod.fst).Nodup) :
    ((alistInsert l k v).map Prod.fst).Nodup := by
  rw [keys_alistInsert]
  split
  · exact h
  next hk =>
    rw [List.nodup_append]
    exact ⟨h, List.nodup_singleton _, by
      intro a ha hb
      simp only [List.mem_singleton] at hb
      subst hb
      exact hk ha⟩

theorem alistGet_of_mem_nodup {α : Type} {l : List (String × α)} {k : String}
    {v : α} (hnd : (l.map Prod.fst).Nodup) (hmem : (k, v) ∈ l) :
    alistGet l k = some v := by
  induction l with
  | nil => simp at hmem
  | cons p rest ih =>
    rw [alistGet]
    rcases List.mem_cons.mp hmem with heq | hmem
    · rw [← heq]
      simp
    · rw [List.map_cons, List.nodup_cons] at hnd
      have hne : p.1 ≠ k := by
        intro hc
        apply hnd.1
        rw [hc]
        exact List.mem_map.mpr ⟨(k, v), hmem, rfl⟩
      rw [if_neg hne]
      exact ih hnd.2 hmem

/-- Well-formedness of the node table: distinct keys, each node is stored
under its own non-empty id, and a stored string parent is never blank after
stripping. -/
def tableWF (nodes : List (String × ArcNode)) : Prop :=
  ((nodes.map Prod.fst).Nodup) ∧
  ∀ p ∈ nodes, p.2.node_id = p.1 ∧ p.1 ≠ "" ∧
    (∀ s, p.2.parent_id = some (.str s) → pstrip s ≠ "")

theorem build_node_table_wf (items : List Json) : tableWF (build_node_table items) := by
  rw [build_node_table]
  suffices h : ∀ (el : List (Nat × Json)) (acc : List (String × ArcNode)),
      tableWF acc → tableWF (el.foldl _ acc) from
    h items.enum [] ⟨List.nodup_nil, by simp⟩
  intro el
  induction el with
  | nil => intro acc h; exact h
  | cons p rest ih =>
    intro acc hacc
    rw [List.foldl_cons]
    apply ih
    cases hp : p.2 with
    | obj fields =>
      show tableWF (match alistGet fields "id" with
        | some (.str nid) =>
          if nid = "" then acc
          else alistInsert acc nid
            ⟨nid,
             (match pyOr (pyOr (alistGet fields "parentID") (alistGet fields "parentId"))
                 (alistGet fields "parent_id") with
              | some (.str s) => if pstrip s = "" then none else some (Json.str s)
              | v => v),
             (match alistGet fields "title" with
              | some (.str t) => some t
              | _ => none),
             (match alistGet fields "data" with
              | some (.obj d) => Json.obj d
              | _ => Json.obj []), p.1⟩
        | _ => acc)
      split
      next nid =>
        split
        · exact hacc
        next hne =>
          refine ⟨keys_alistInsert_nodup hacc.1, ?_⟩
          intro q hq
          rcases mem_alistInsert hq with heq | hq
          · subst heq
            refine ⟨rfl, hne, ?_⟩
            intro s hs
            simp only at hs
            split at hs
            next s' =>
              split at hs
              · exact absurd hs (by simp)
              next hblank =>
                injection hs with hs
                injection hs with hs
                subst hs
                exact hblank
            next v hother =>
              rcases pyOr_cases (pyOr (alistGet fields "parentID") (alistGet fields "parentId")) (alistGet fields "parent_id") with hc | hc <;>
                rcases pyOr_cases (alistGet fields "parentID") (alistGet fields "parentId") with hc2 | hc2 <;>
                exact absurd hs (by intro hcon; exact hother _ hcon)
          · exact hacc.2 q hq
      all_goals exact hacc
    | null => exact hacc
    | bool b => exact hacc
    | num n => exact hacc
    | str s => exact hacc
    | arr xs => exact hacc

theorem alistGet_mem_pair {α : Type} {l : List (String × α)} {k : String} {v : α}
    (h : alistGet l k = some v) : (k, v) ∈ l := by
  induction l with
  | nil => simp [alistGet] at h
  | cons p rest ih =>
    rw [alistGet] at h
    split at h
    next heq =>
      injection h with h
      subst h
      rw [← heq]
      exact List.mem_cons_self _ _
    · exact List.mem_cons_of_mem _ (ih h)

theorem cmapAdd_get_self :
    ∀ (m : List (String × List String)) (k v : String),
      v ∈ (alistGet (cmapAdd m k v) k).getD [] := by
  intro m
  induction m with
  | nil => intro k v; simp [cmapAdd, alistGet]
  | cons p rest ih =>
    intro k v
    rw [cmapAdd]
    split
    next heq =>
      rw [alistGet]
      simp
    next hne =>
      rw [alistGet]
      split
      next heq2 =>
        exact absurd heq2 hne
      · exact ih k v

theorem cmapAdd_get_mono {x : String} :
    ∀ {m : List (String × List String)} {k v k' : String},
      x ∈ (alistGet m k').getD [] → x ∈ (alistGet (cmapAdd m k v) k').getD [] := by
  intro m
  induction m with
  | nil => intro k v k' h; simp [alistGet] at h
  | cons p rest ih =>
    intro k v k' h
    rw [cmapAdd]
    split
    next heq =>
      subst heq
      rw [alistGet] at h ⊢
      split
      next heq2 =>
        rw [if_pos heq2] at h
        simp only [Option.getD_some] at h ⊢
        exact List.mem_append.mpr (Or.inl h)
      next hne2 =>
        rw [if_neg hne2] at h
        exact h
    next hne =>
      rw [alistGet] at h ⊢
      split
      next heq2 =>
        rw [if_pos heq2] at h
        exact h
      next hne2 =>
        rw [if_neg hne2] at h
        exact ih h

theorem mem_cmapAdd_source {i : String} :
    ∀ (m : List (String × List String)) (k v : String) (pl : String × List String),
      pl ∈ cmapAdd m k v → i ∈ pl.2 →
      (pl.1 = k ∧ i = v) ∨ ∃ pl' ∈ m, pl'.1 = pl.1 ∧ i ∈ pl'.2 := by
  intro m
  induction m with
  | nil =>
    intro k v pl hp hi
    rw [cmapAdd] at hp
    simp only [List.mem_singleton] at hp
    subst hp
    simp only [List.mem_singleton] at hi
    exact Or.inl ⟨rfl, hi⟩
  | cons p rest ih =>
    intro k v pl hp hi
    rw [cmapAdd] at hp
    split at hp
    next heq =>
      rcases List.mem_cons.mp hp with rfl | hp
      · rcases List.mem_append.mp hi with hi | hi
        · exact Or.inr ⟨p, List.mem_cons_self _ _, heq, hi⟩
        · simp only [List.mem_singleton] at hi
          exact Or.inl ⟨rfl, hi⟩
      · exact Or.inr ⟨pl, List.mem_cons_of_mem _ hp, rfl, hi⟩
    next hne =>
      rcases List.mem_cons.mp hp with rfl | hp
      · exact Or.inr ⟨p, List.mem_cons_self _ _, rfl, hi⟩
      · rcases ih k v pl hp hi with h | ⟨pl', hpl', h1, h2⟩
        · exact Or.inl h
        · exact Or.inr ⟨pl', List.mem_cons_of_mem _ hpl', h1, h2⟩

theorem cmap_fold_get_mono (nodes : List (String × ArcNode)) {x p : String} :
    ∀ (el : List (String × ArcNode)) (acc : List (String × List String)),
      x ∈ (alistGet acc p).getD [] →
      x ∈ (alistGet (el.foldl
        (fun m q =>
          if parent_in_table nodes q.2.parent_id then
            match q.2.parent_id with
            | some (.str s) => cmapAdd m s q.2.node_id
            | _ => m
          else m) acc) p).getD [] := by
  intro el
  induction el with
  | nil => intro acc h; exact h
  | cons q rest ih =>
    intro acc h
    rw [List.foldl_cons]
    apply ih
    split
    · split
      · exact cmapAdd_get_mono h
      · exact h
    · exact h

theorem cmap_contains (nodes : List (String × ArcNode)) {q : String × ArcNode}
    {ps : String} (hq : q ∈ nodes)
    (hpit : parent_in_table nodes q.2.parent_id = true)
    (hps : q.2.parent_id = some (.str ps)) :
    q.2.node_id ∈ (alistGet (build_children_map nodes) ps).getD [] := by
  rw [build_children_map]
  suffices h : ∀ (el : List (String × ArcNode)) (acc : List (String × List String)),
      q ∈ el →
      q.2.node_id ∈ (alistGet (el.foldl
        (fun m q' =>
          if parent_in_table nodes q'.2.parent_id then
            match q'.2.parent_id with
            | some (.str s) => cmapAdd m s q'.2.node_id
            | _ => m
          else m) acc) ps).getD [] from h nodes [] hq
  intro el
  induction el with
  | nil => intro acc h; simp at h
  | cons q' rest ih =>
    intro acc hmem
    rw [List.foldl_cons]
    rcases List.mem_cons.mp hmem with rfl | hmem
    · apply cmap_fold_get_mono
      rw [if_pos hpit, hps]
      exact cmapAdd_get_self _ _ _
    · exact ih _ hmem

theorem cmap_source (nodes : List (String × ArcNode)) {pl : String × List String}
    {i : String} (hpl : pl ∈ build_children_map nodes) (hi : i ∈ pl.2) :
    ∃ q ∈ nodes, q.2.node_id = i ∧ parent_in_table nodes q.2.parent_id = true := by
  rw [build_children_map] at hpl
  suffices h : ∀ (el : List (String × ArcNode)) (acc : List (String × List String)),
      (∀ q ∈ el, q ∈ nodes) →
      (∀ pl' ∈ acc, ∀ i' ∈ pl'.2,
        ∃ q ∈ nodes, q.2.node_id = i' ∧ parent_in_table nodes q.2.parent_id = true) →
      ∀ pl' ∈ el.foldl
        (fun m q' =>
          if parent_in_table nodes q'.2.parent_id then
            match q'.2.parent_id with
            | some (.str s) => cmapAdd m s q'.2.node_id
            | _ => m
          else m) acc, ∀ i' ∈ pl'.2,
        ∃ q ∈ nodes, q.2.node_id = i' ∧ parent_in_table nodes q.2.parent_id = true by
    exact h nodes [] (fun q hq => hq) (by simp) pl hpl i hi
  intro el
  induction el with
  | nil => intro acc _ hacc pl' hpl' i' hi'; exact hacc pl' hpl' i' hi'
  | cons q' rest ih =>
    intro acc hel hacc pl' hpl' i' hi'
    rw [List.foldl_cons] at hpl'
    refine ih _ (fun q hq => hel q (List.mem_cons_of_mem _ hq)) ?_ pl' hpl' i' hi'
    intro pl'' hpl'' i'' hi''
    by_cases hpit : parent_in_table nodes q'.2.parent_id = true
    · rw [if_pos hpit] at hpl''
      cases hpid : q'.2.parent_id with
      | none => rw [hpid] at hpl''; exact hacc pl'' hpl'' i'' hi''
      | some jv =>
        cases jv with
        | str s =>
          rw [hpid] at hpl''
          rcases mem_cmapAdd_source _ _ _ _ hpl'' hi'' with ⟨_, hiv⟩ | ⟨pl3, hpl3, _, hi3⟩
          · exact ⟨q', hel q' (List.mem_cons_self _ _), hiv.symm, hpit⟩
          · exact hacc pl3 hpl3 i'' hi3
        | null => rw [hpid] at hpl''; exact hacc pl'' hpl'' i'' hi''
        | bool b => rw [hpid] at hpl''; exact hacc pl'' hpl'' i'' hi''
        | num n => rw [hpid] at hpl''; exact hacc pl'' hpl'' i'' hi''
        | arr xs => rw [hpid] at hpl''; exact hacc pl'' hpl'' i'' hi''
        | obj fs => rw [hpid] at hpl''; exact hacc pl'' hpl'' i'' hi''
    · rw [if_neg hpit] at hpl''
      exact hacc pl'' hpl'' i'' hi''

theorem mem_container_root_ids {nodes : List (String × ArcNode)} {nid : String}
    {node : ArcNode} (hwf : tableWF nodes) (hn : alistGet nodes nid = some node)
    (hp : parent_in_table nodes node.parent_id = false) :
    nid ∈ container_root_ids nodes := by
  rw [container_root_ids]
  have hpair := alistGet_mem_pair hn
  have hid : node.node_id = nid := (hwf.2 (nid, node) hpair).1
  apply List.mem_map.mpr
  refine ⟨node, ?_, hid⟩
  apply List.mem_filter.mpr
  refine ⟨?_, by rw [hp]; rfl⟩
  rw [List.mem_insertionSort]
  exact List.mem_map.mpr ⟨(nid, node), hpair, rfl⟩

theorem not_mem_container_root_ids {nodes : List (String × ArcNode)} {nid : String}
    {node : ArcNode} (hwf : tableWF nodes) (hn : alistGet nodes nid = some node)
    (hp : parent_in_table nodes node.parent_id = true) :
    nid ∉ container_root_ids nodes := by
  intro hmem
  rw [container_root_ids] at hmem
  obtain ⟨n', hn', hid⟩ := List.mem_map.mp hmem
  have hfil := List.mem_filter.mp hn'
  have hmem2 := (List.mem_insertionSort _).mp hfil.1
  obtain ⟨q, hq, hqe⟩ := List.mem_map.mp hmem2
  have hkey : q.2.node_id = q.1 := (hwf.2 q hq).1
  have hq1 : q.1 = nid := by rw [← hkey, hqe, hid]
  have hget : alistGet nodes q.1 = some q.2 := by
    have : (q.1, q.2) ∈ nodes := by simpa using hq
    exact alistGet_of_mem_nodup hwf.1 this
  rw [hq1, hn] at hget
  injection hget with hget
  rw [hget, hqe] at hp
  have hcon := hfil.2
  rw [hp] at hcon
  simp at hcon

theorem noCKFields_parts {fs : List (String × Json)} (h : noCKFields fs = true) :
    ∀ p ∈ fs, p.1 ≠ "containers" ∧ noContainersKey p.2 = true := by
  induction fs with
  | nil => intro p hp; simp at hp
  | cons q rest ih =>
    intro p hp
    obtain ⟨qk, qv⟩ := q
    rw [noCKFields] at h
    simp only [Bool.and_eq_true, decide_eq_true_eq] at h
    rcases List.mem_cons.mp hp with rfl | hp
    · exact ⟨h.1.1, h.1.2⟩
    · exact ih h.2 p hp

theorem noCKList_parts {xs : List Json} (h : noCKList xs = true) :
    ∀ x ∈ xs, noContainersKey x = true := by
  induction xs with
  | nil => intro x hx; simp at hx
  | cons v rest ih =>
    intro x hx
    rw [noCKList] at h
    simp only [Bool.and_eq_true] at h
    rcases List.mem_cons.mp hx with rfl | hx
    · exact h.1
    · exact ih h.2 x hx

theorem alistGet_none_of_noCKFields {fs : List (String × Json)}
    (h : noCKFields fs = true) : alistGet fs "containers" = none := by
  induction fs with
  | nil => rfl
  | cons q rest ih =>
    obtain ⟨qk, qv⟩ := q
    rw [noCKFields] at h
    simp only [Bool.and_eq_true, decide_eq_true_eq] at h
    rw [alistGet]
    rw [if_neg h.1.1]
    exact ih h.2

theorem fca_none_of_noCK : ∀ j, noContainersKey j = true →
    find_containers_anywhere j = none := by
  have main : ∀ j, noContainersKey j = true → find_containers_anywhere j = none := by
    intro j
    induction j using json_induction with
    | h0 => intro _; rfl
    | h1 b => intro _; rfl
    | h2 n => intro _; rfl
    | h3 s => intro _; rfl
    | harr xs ihx =>
      intro h
      rw [noContainersKey] at h
      rw [find_containers_anywhere]
      have : ∀ l, (∀ x ∈ l, noContainersKey x = true →
          find_containers_anywhere x = none) → noCKList l = true →
          fca_list l = none := by
        intro l
        induction l with
        | nil => intro _ _; rfl
        | cons v rest ihl =>
          intro hall hck
          rw [noCKList] at hck
          simp only [Bool.and_eq_true] at hck
          rw [fca_list, hall v (List.mem_cons_self _ _) hck.1]
          exact ihl (fun x hx => hall x (List.mem_cons_of_mem _ hx)) hck.2
      exact this xs ihx h
    | hobj fs ihf =>
      intro h
      rw [noContainersKey] at h
      rw [find_containers_anywhere, alistGet_none_of_noCKFields h]
      have : ∀ l, (∀ p ∈ l, noContainersKey p.2 = true →
          find_containers_anywhere p.2 = none) → noCKFields l = true →
          fca_fields l = none := by
        intro l
        induction l with
        | nil => intro _ _; rfl
        | cons q rest ihl =>
          intro hall hck
          obtain ⟨qk, qv⟩ := q
          rw [noCKFields] at hck
          simp only [Bool.and_eq_true, decide_eq_true_eq] at hck
          rw [fca_fields, hall (qk, qv) (List.mem_cons_self _ _) hck.1.2]
          exact ihl (fun p hp => hall p (List.mem_cons_of_mem _ hp)) hck.2
      exact this fs ihf h
  exact main

theorem extract_containers_char (data : List (String × Json)) :
    extract_containers data =
      (match sidebar_path_list ((alistGet data "root").getD (.obj data)) with
       | some cs => cs
       | none =>
         (find_containers_anywhere
           ((alistGet data "root").getD (.obj data))).getD []) := by
  rw [extract_containers]
  cases hroot : (alistGet data "root").getD (.obj data) with
  | obj rf =>
    show (match alistGet rf "sidebar" with
          | some (.obj sf) =>
            (match alistGet sf "containers" with
             | some (.arr cs) => cs
             | _ => (find_containers_anywhere (Json.obj rf)).getD [])
          | _ => (find_containers_anywhere (Json.obj rf)).getD []) =
      (match (match alistGet rf "sidebar" with
              | some (.obj sf) =>
                (match alistGet sf "containers" with
                 | some (.arr cs) => some cs
                 | _ => none)
              | _ => none) with
       | some cs => cs
       | none => (find_containers_anywhere (Json.obj rf)).getD [])
    cases hs : alistGet rf "sidebar" with
    | none => rfl
    | some sv =>
      cases sv with
      | obj sf =>
        show (match alistGet sf "containers" with
              | some (.arr cs) => cs
              | _ => (find_containers_anywhere (Json.obj rf)).getD []) =
          (match (match alistGet sf "containers" with
                  | some (.arr cs) => some cs
                  | _ => none) with
           | some cs => cs
           | none => (find_containers_anywhere (Json.obj rf)).getD [])
        cases hc : alistGet sf "containers" with
        | none => rfl
        | some cv => cases cv <;> rfl
      | null => rfl
      | bool b => rfl
      | num n => rfl
      | str s => rfl
      | arr xs => rfl
  | null => rfl
  | bool b => rfl
  | num n => rfl
  | str s => rfl
  | arr xs => rfl

theorem sidebar_path_list_none_of_noCK {root : Json}
    (h : noContainersKey root = true) : sidebar_path_list root = none := by
  cases root with
  | obj rf =>
    have hrf : noCKFields rf = true := by rwa [noContainersKey] at h
    show (match alistGet rf "sidebar" with
          | some (.obj sf) =>
            (match alistGet sf "containers" with
             | some (.arr cs) => some cs
             | _ => none)
          | _ => none) = none
    cases hs : alistGet rf "sidebar" with
    | none => rfl
    | some sv =>
      cases sv with
      | obj sf =>
        have hsf : noContainersKey (.obj sf) = true :=
          (noCKFields_parts hrf ("sidebar", .obj sf) (alistGet_mem_pair hs)).2
        have hsff : noCKFields sf = true := by rwa [noContainersKey] at hsf
        show (match alistGet sf "containers" with
              | some (.arr cs) => some cs
              | _ => none) = none
        rw [alistGet_none_of_noCKFields hsff]
      | null => rfl
      | bool b => rfl
      | num n => rfl
      | str s => rfl
      | arr xs => rfl
  | null => rfl
  | bool b => rfl
  | num n => rfl
  | str s => rfl
  | arr xs => rfl

theorem extract_containers_empty_of_noCK {data : List (String × Json)}
    (h : noContainersKey (.obj data) = true) : extract_containers data = [] := by
  have hfields : noCKFields data = true := by rwa [noContainersKey] at h
  have hroot : noContainersKey ((alistGet data "root").getD (.obj data)) = true := by
    cases hr : alistGet data "root" with
    | none => exact h
    | some r =>
      have := noCKFields_parts hfields ("root", r) (alistGet_mem_pair hr)
      exact this.2
  rw [extract_containers_char, sidebar_path_list_none_of_noCK hroot,
    fca_none_of_noCK _ hroot]
  rfl

theorem parse_arc_sidebar_empty_of_noCK {data : List (String × Json)}
    (inc allc : Bool) (h : noContainersKey (.obj data) = true) :
    parse_arc_sidebar data inc allc = ([], ⟨0, 0, 0, 0, 0, 0⟩) := by
  have he := extract_containers_empty_of_noCK h
  rw [parse_arc_sidebar]
  simp only [he]
  rfl

/-- C1: for every node table, children index (cycles included) and starting
id, `build_tree` terminates (it is a total function; the height of any result
is bounded by the number of table nodes off the ancestor path, so the result
is finite), an id already in the `visiting` ancestor path yields an absent
result immediately, and no node id appears twice on the same root-to-leaf
path of the recursion (stated over the id-annotated mirror `build_itree`,
which erases to `build_tree` exactly). -/
theorem C1_cycle_safety (nodes : List (String × ArcNode))
    (cm : List (String × List String)) (visiting : List String) (nid : String) :
    (nid ∈ visiting → build_tree nid nodes cm visiting = none) ∧
    (∀ t, build_tree nid nodes cm visiting = some t →
      BNode.height t ≤ freeCount nodes visiting) ∧
    (build_tree nid nodes cm visiting =
      Option.map eraseITree (build_itree nid nodes cm visiting)) ∧
    (∀ it, build_itree nid nodes cm visiting = some it →
      ∀ p ∈ ipaths it, p.Nodup ∧ ∀ x ∈ p, x ∉ visiting) := by
  refine ⟨fun h => build_tree_vis nodes cm h, ?_,
    build_tree_eq_erase_itree nid nodes cm visiting, ?_⟩
  · intro t h
    exact (height_level nodes cm (freeCount nodes visiting) visiting le_rfl).1 nid t h
  · intro it h p hp
    exact (ipaths_level nodes cm (freeCount nodes visiting) visiting le_rfl).1
      nid it h p hp

/-- Two-node parent cycle A→B→A used to witness C1 concretely. -/
def c1nodes : List (String × ArcNode) :=
  [("A", ⟨"A", some (.str "B"), none, .obj [("list", .obj [])], 0⟩),
   ("B", ⟨"B", some (.str "A"), none, .obj [("list", .obj [])], 1⟩)]

/-- Children index of the two-node cycle. -/
def c1cm : List (String × List String) := [("A", ["B"]), ("B", ["A"])]

theorem C1_cycle_safety_witness :
    build_tree "A" c1nodes c1cm ["A"] = none ∧
    BNode.height (.folder ("Untitled Folder") [.folder ("Untitled Folder") []]) ≤
      freeCount c1nodes [] ∧
    (∀ p ∈ ipaths (.node "A" ("Untitled Folder") [.node "B" ("Untitled Folder") []]),
      p.Nodup ∧ ∀ x ∈ p, x ∉ ([] : List String)) := by
  refine ⟨(C1_cycle_safety c1nodes c1cm ["A"] "A").1 (by decide), ?_, ?_⟩
  · exact (C1_cycle_safety c1nodes c1cm [] "A").2.1 _
      (by simp [build_tree, build_forest, c1nodes, c1cm, alistGet, get_tab_info,
        is_folder_like, alistHasKey, get_node_title, first_filled, dedupChildren,
        pyOr, otruthy, jtruthy, freeCount])
  · exact (C1_cycle_safety c1nodes c1cm [] "A").2.2.2 _
      (by simp [build_itree, build_iforest, c1nodes, c1cm, alistGet, get_tab_info,
        is_folder_like, alistHasKey, get_node_title, first_filled, idedup,
        pyOr, otruthy, jtruthy, freeCount])

/-- C2: a node whose data carries a tab mapping with a non-empty URL (the
`savedURL`/`url`/`URL` chain succeeding, i.e. `get_tab_info` yields a
Bookmark) is always rendered as that Bookmark leaf by `build_tree` and never
as a Folder, whatever other keys (`list`, `tabGroup`, `itemContainer`
included) its data carries. -/
theorem C2_tab_never_folder (nid : String) (nodes : List (String × ArcNode))
    (cm : List (String × List String)) (visiting : List String)
    (node : ArcNode) (bm : Bookmark)
    (hvis : nid ∉ visiting) (hn : alistGet nodes nid = some node)
    (ht : get_tab_info node = some bm) :
    build_tree nid nodes cm visiting = some (.bookmark bm) ∧
    ∀ ftitle fchildren,
      build_tree nid nodes cm visiting ≠ some (.folder ftitle fchildren) := by
  have h := build_tree_tab cm hvis hn ht
  refine ⟨h, ?_⟩
  intro ftitle fchildren hcon
  rw [h] at hcon
  injection hcon with hcon
  exact absurd hcon (by simp)

/-- Tab node that also carries the folder-like key `list`, witnessing C2. -/
def c2node : ArcNode :=
  ⟨"T", none, none,
   .obj [("list", .obj []),
         ("tab", .obj [("savedURL", .str "https://x"), ("savedTitle", .str "X")])], 0⟩

theorem C2_tab_never_folder_witness :
    build_tree "T" [("T", c2node)] [("T", ["C"])] [] =
      some (.bookmark ⟨"X", "https://x"⟩) :=
  (C2_tab_never_folder "T" [("T", c2node)] [("T", ["C"])] [] c2node
    ⟨"X", "https://x"⟩ (by decide) rfl rfl).1

/-- Document whose top-level `root` key is a scalar while a `containers` list
sits beside it: the source searches only the `root` value, the claim's
whole-structure search would find the list. -/
def c5data : List (String × Json) := [("root", .num 0), ("containers", .arr [.num 1])]

/-- C5 (counterexample): at `c5data` the exact sidebar path fails, so the
claim as stated demands the first list under a `containers` key anywhere in
the whole document, which exists (`[.num 1]`); `extract_containers` returns
`[]` because it searches only the value under the top-level `root` key. -/
theorem C5_counterexample :
    sidebar_path_list ((alistGet c5data "root").getD (.obj c5data)) = none ∧
    extract_containers c5data = [] ∧
    (find_containers_anywhere (.obj c5data)).getD [] = [.num 1] ∧
    ([] : List Json) ≠ [.num 1] := by
  refine ⟨rfl, rfl, rfl, by simp⟩

/-- C5 (amended): container extraction returns `root.sidebar.containers` when
that exact path holds a list; otherwise it returns the first list found by
the deterministic depth-first search under a key literally named
`containers` over the search root - the value under the top-level `root` key
when that key is present, else the whole document - and the empty list,
never an error, when no such list exists there. -/
theorem C5_extract_containers_amended (data : List (String × Json)) :
    extract_containers data =
      (match sidebar_path_list ((alistGet data "root").getD (.obj data)) with
       | some cs => cs
       | none =>
         (find_containers_anywhere
           ((alistGet data "root").getD (.obj data))).getD []) :=
  extract_containers_char data

/-- C9: a document with no `containers` key anywhere parses to an empty
forest with all-zero statistics without raising, and the boundary reports
the empty result as the fatal exit code 2. -/
theorem C9_empty_document (data : List (String × Json)) (inc allc : Bool)
    (h : noContainersKey (.obj data) = true) :
    parse_arc_sidebar data inc allc = ([], ⟨0, 0, 0, 0, 0, 0⟩) ∧
    main_outcome_after_load data inc allc = 2 := by
  have hp := parse_arc_sidebar_empty_of_noCK inc allc h
  refine ⟨hp, ?_⟩
  rw [main_outcome_after_load, hp]
  rfl

theorem C9_empty_document_witness :
    parse_arc_sidebar [("a", .str "x")] false false = ([], ⟨0, 0, 0, 0, 0, 0⟩) ∧
    main_outcome_after_load [("a", .str "x")] false false = 2 :=
  C9_empty_document [("a", .str "x")] false false rfl

/-- C3: within one folder's direct children the deduplication loop keeps the
first occurrence of each Bookmark `(title, url)` pair and drops later exact
duplicates (it equals the specification-worded `claimDedup`), never removes
Folders, preserves Bookmark membership (so identical Bookmarks under two
different parents each survive in their own parent), and every Folder built
by `build_tree` applies this loop to its own children with a fresh empty
seen-set. -/
theorem C3_dedup_scope :
    (∀ l : List BNode, dedupChildren l [] = claimDedup l) ∧
    (∀ (l : List BNode) (seen : List (String × String)),
      (dedupChildren l seen).filter isFolderB = l.filter isFolderB) ∧
    (∀ (l : List BNode) (b : Bookmark),
      BNode.bookmark b ∈ dedupChildren l [] ↔ BNode.bookmark b ∈ l) ∧
    (∀ (nid : String) (nodes : List (String × ArcNode))
      (cm : List (String × List String)) (visiting : List String)
      (t : String) (cs : List BNode),
      build_tree nid nodes cm visiting = some (.folder t cs) →
      cs = dedupChildren
        (build_forest ((alistGet cm nid).getD []) nodes cm (nid :: visiting)) []) := by
  refine ⟨dedupChildren_eq_claimDedup, dedupChildren_filter_folders, ?_, ?_⟩
  · intro l b
    constructor
    · exact mem_dedupChildren
    · intro h
      exact mem_dedupChildren_of_mem h (by simp)
  · intro nid nodes cm visiting t cs h
    obtain ⟨nd, _, _, hcs⟩ := build_tree_folder_inv h
    exact hcs

/-- Folder node with two children that are identical tabs, witnessing C3. -/
def c3nodes : List (String × ArcNode) :=
  [("P", ⟨"P", none, none, .obj [("list", .obj [])], 0⟩),
   ("a", ⟨"a", some (.str "P"), none,
     .obj [("tab", .obj [("savedURL", .str "https://u"), ("savedTitle", .str "X")])], 1⟩),
   ("b", ⟨"b", some (.str "P"), none,
     .obj [("tab", .obj [("savedURL", .str "https://u"), ("savedTitle", .str "X")])], 2⟩)]

/-- Children index of the duplicate-tab example. -/
def c3cm : List (String × List String) := [("P", ["a", "b"])]

theorem C3_dedup_scope_witness :
    [BNode.bookmark ⟨"X", "https://u"⟩] =
      dedupChildren (build_forest ((alistGet c3cm "P").getD []) c3nodes c3cm
        ("P" :: [])) [] :=
  C3_dedup_scope.2.2.2 "P" c3nodes c3cm [] ("Untitled Folder")
    [BNode.bookmark ⟨"X", "https://u"⟩]
    (by simp [build_tree, build_forest, c3nodes, c3cm, alistGet, get_tab_info,
      is_folder_like, alistHasKey, get_node_title, first_filled, dedupChildren,
      pyOr, otruthy, jtruthy, pstrip, stripChars])

/-- Single item whose parent reference is its own id, used against C4. -/
def c4items : List Json := [.obj [("id", .str "A"), ("parentID", .str "A")]]

/-- C4 (counterexample): the claim says a self-referential parent reference
resolves to "no parent", making the node a root that contributes to no child
list; on `c4items` the code keeps the self-reference, so "A" is missing from
the container's root-id list and is listed as its own child. -/
theorem C4_counterexample :
    ("A" ∉ container_root_ids (build_node_table c4items)) ∧
    alistGet (build_children_map (build_node_table c4items)) "A" = some ["A"] := by
  refine ⟨by decide, rfl⟩

/-- C4 (amended): for every items entry accepted into the node table, an
empty or whitespace parent reference resolves to "no parent" (no stored
string parent is blank after stripping), and a node without a parent is a
root: it appears in the container's root-id list and contributes to no
parent's child list.  A self-referential parent reference, however, is kept
as-is: such a node is absent from the root-id list and appears in its own
child list. -/
theorem C4_parent_resolution_amended (items : List Json) (nid : String)
    (node : ArcNode)
    (hn : alistGet (build_node_table items) nid = some node) :
    (∀ s, node.parent_id = some (.str s) → pstrip s ≠ "") ∧
    (node.parent_id = none →
      nid ∈ container_root_ids (build_node_table items) ∧
      ∀ pl ∈ build_children_map (build_node_table items), nid ∉ pl.2) ∧
    (node.parent_id = some (.str nid) →
      nid ∉ container_root_ids (build_node_table items) ∧
      nid ∈ (alistGet (build_children_map (build_node_table items)) nid).getD []) := by
  have hwf := build_node_table_wf items
  have hpair := alistGet_mem_pair hn
  have hprops := hwf.2 (nid, node) hpair
  refine ⟨hprops.2.2, ?_, ?_⟩
  · intro hp
    constructor
    · exact mem_container_root_ids hwf hn (by rw [hp]; rfl)
    · intro pl hpl hin
      obtain ⟨q, hq, hqid, hqpit⟩ := cmap_source (build_node_table items) hpl hin
      have hqkey : q.2.node_id = q.1 := (hwf.2 q hq).1
      have hq1 : q.1 = nid := by rw [← hqkey, hqid]
      have hget : alistGet (build_node_table items) q.1 = some q.2 :=
        alistGet_of_mem_nodup hwf.1 (by simpa using hq)
      rw [hq1, hn] at hget
      injection hget with hget
      rw [← hget, hp] at hqpit
      exact absurd hqpit (by simp [parent_in_table, otruthy])
  · intro hp
    have hpit : parent_in_table (build_node_table items) node.parent_id = true := by
      rw [hp, parent_in_table]
      have hne : nid ≠ "" := hprops.2.1
      have hkey : alistHasKey (build_node_table items) nid = true := by
        rw [alistHasKey, hn]
        rfl
      simp [otruthy, jtruthy, hne, hkey]
    constructor
    · exact not_mem_container_root_ids hwf hn hpit
    · have := cmap_contains (build_node_table items) hpair hpit hp
      rw [hprops.1] at this
      exact this

/-- Single item with a whitespace-only parent reference, witnessing the
amended C4. -/
def c4witems : List Json := [.obj [("id", .str "A"), ("parentID", .str "  ")]]

theorem C4_parent_resolution_amended_witness :
    "A" ∈ container_root_ids (build_node_table c4witems) ∧
    ∀ pl ∈ build_children_map (build_node_table c4witems), "A" ∉ pl.2 :=
  (C4_parent_resolution_amended c4witems "A" ⟨"A", none, none, .obj [], 0⟩
    rfl).2.1 rfl

/-- C6: the extracted space root ids are exactly the gathered candidate ids
(direct key variants on the space and its nested data mapping plus the
recursive key scan) that are present in the node table, without duplicates,
and the result is sorted by each node's positional order field. -/
theorem C6_space_root_resolution (sp : List (String × Json))
    (nodes : List (String × ArcNode)) :
    (∀ x, x ∈ extract_space_roots sp nodes ↔
      x ∈ space_candidate_ids sp ∧ alistHasKey nodes x = true) ∧
    (extract_space_roots sp nodes).Nodup ∧
    (extract_space_roots sp nodes).Pairwise
      (fun a b => order_of nodes a ≤ order_of nodes b) := by
  refine ⟨?_, ?_, ?_⟩
  · intro x
    rw [extract_space_roots]
    rw [List.mem_insertionSort]
    rw [List.mem_filter]
    rw [List.mem_dedup]
  · rw [extract_space_roots]
    rw [(List.perm_insertionSort _ _).nodup_iff]
    exact (List.nodup_dedup _).filter _
  · rw [extract_space_roots]
    haveI : IsTotal String (fun a b => order_of nodes a ≤ order_of nodes b) :=
      ⟨fun a b => Nat.le_total _ _⟩
    haveI : IsTrans String (fun a b => order_of nodes a ≤ order_of nodes b) :=
      ⟨fun a b c => Nat.le_trans⟩
    exact List.sorted_insertionSort _ _

/-- C7: a space whose first pinned-status boolean (checked on the space
mapping, then on its nested data mapping) is `false` contributes nothing to
the output when the include-unpinned option is unset; a space with no such
boolean has unknown pinned status and is never skipped by the pin filter:
it is included exactly when it yields children. -/
theorem C7_pin_filter (sp : List (String × Json)) (index : Nat)
    (nodes : List (String × ArcNode)) (cm : List (String × List String))
    (inc : Bool) :
    (space_is_pinned sp = some false → inc = false →
      space_entry (.obj sp) index nodes cm inc = none) ∧
    (space_is_pinned sp = none →
      (space_entry (.obj sp) index nodes cm inc = none ↔
        build_children_from_ids (extract_space_roots sp nodes) nodes cm = [])) := by
  constructor
  · intro h1 h2
    rw [space_entry]
    rw [if_pos (by rw [h1, h2]; rfl)]
  · intro hp
    rw [space_entry]
    rw [if_neg (by simp [hp])]
    by_cases hroots : (extract_space_roots sp nodes).isEmpty = true
    · rw [if_pos hroots]
      have hre : extract_space_roots sp nodes = [] := by
        cases he : extract_space_roots sp nodes
        · rfl
        · rw [he] at hroots; simp at hroots
      rw [hre]
      rw [build_children_from_ids, build_forest_nil]
      simp [dedupChildren]
    · rw [if_neg hroots]
      by_cases hch : (build_children_from_ids (extract_space_roots sp nodes)
          nodes cm).isEmpty = true
      · rw [if_pos hch]
        have hce : build_children_from_ids (extract_space_roots sp nodes)
            nodes cm = [] := by
          cases he : build_children_from_ids (extract_space_roots sp nodes) nodes cm
          · rfl
          · rw [he] at hch; simp at hch
        simp [hce]
      · rw [if_neg hch]
        constructor
        · intro hcon; exact absurd hcon (by simp)
        · intro hcon
          rw [hcon] at hch
          simp at hch

/-- Unpinned space mapping witnessing the C7 skip. -/
def c7pinned : List (String × Json) := [("isPinned", .bool false)]

theorem C7_pin_filter_witness :
    space_entry (.obj c7pinned) 0 [] [] false = none ∧
    (space_entry (.obj ([] : List (String × Json))) 0 [] [] false = none ↔
      build_children_from_ids (extract_space_roots [] []) [] [] = []) :=
  ⟨(C7_pin_filter c7pinned 0 [] [] false).1 rfl rfl,
   (C7_pin_filter [] 0 [] [] false).2 rfl⟩

/-- Top-level composition of one container's export as the specification
words it: if at least one space produced output, all included space folders
in original space-list order followed by the expansion of every container
root id not claimed by any included space; if zero spaces produced output
(a missing or empty spaces list included), the expansion of every container
root id wrapped in exactly one synthetic container folder when non-empty,
and nothing when empty. -/
def parse_container_claim (container : Json) (container_index : Nat)
    (include_unpinned : Bool) : List BNode :=
  let nodes := build_node_table ((find_list_for_key ("items") container).getD [])
  let cm := build_children_map nodes
  let roots := container_root_ids nodes
  let folded := process_spaces ((find_list_for_key ("spaces") container).getD [])
    nodes cm include_unpinned
  if folded.1.isEmpty then
    container_root_wrap container_index (build_children_from_ids roots nodes cm)
  else
    folded.1 ++ build_children_from_ids
      (roots.filter (fun i => decide (i ∉ folded.2.1))) nodes cm

/-- C8: the forest produced by `parse_container` is exactly the composition
the specification describes (`parse_container_claim`). -/
theorem C8_container_composition (container : Json) (idx : Nat) (inc : Bool) :
    (parse_container container idx inc).1 = parse_container_claim container idx inc := by
  rw [parse_container_eq]
  cases hsp : find_list_for_key ("spaces") container with
  | none => rw [parse_container_claim, hsp]; rfl
  | some sl =>
    cases sl with
    | nil => rw [parse_container_claim, hsp]; rfl
    | cons s sl' =>
      show (if (s :: sl').isEmpty = true then
          (container_root_wrap idx (build_children_from_ids (container_root_ids (build_node_table ((find_list_for_key ("items") container).getD []))) (build_node_table ((find_list_for_key ("items") container).getD [])) (build_children_map (build_node_table ((find_list_for_key ("items") container).getD [])))),
           ((some (s :: sl')).getD ([] : List Json)).length, 0)
        else if (process_spaces (s :: sl') (build_node_table ((find_list_for_key ("items") container).getD [])) (build_children_map (build_node_table ((find_list_for_key ("items") container).getD []))) inc).1.isEmpty = true then
          (container_root_wrap idx (build_children_from_ids (container_root_ids (build_node_table ((find_list_for_key ("items") container).getD []))) (build_node_table ((find_list_for_key ("items") container).getD [])) (build_children_map (build_node_table ((find_list_for_key ("items") container).getD [])))),
           ((some (s :: sl')).getD ([] : List Json)).length, (process_spaces (s :: sl') (build_node_table ((find_list_for_key ("items") container).getD [])) (build_children_map (build_node_table ((find_list_for_key ("items") container).getD []))) inc).2.2)
        else
          ((process_spaces (s :: sl') (build_node_table ((find_list_for_key ("items") container).getD [])) (build_children_map (build_node_table ((find_list_for_key ("items") container).getD []))) inc).1 ++ build_children_from_ids
            ((container_root_ids (build_node_table ((find_list_for_key ("items") container).getD []))).filter (fun i => decide (i ∉ (process_spaces (s :: sl') (build_node_table ((find_list_for_key ("items") container).getD [])) (build_children_map (build_node_table ((find_list_for_key ("items") container).getD []))) inc).2.1))) (build_node_table ((find_list_for_key ("items") container).getD [])) (build_children_map (build_node_table ((find_list_for_key ("items") container).getD []))),
           ((some (s :: sl')).getD ([] : List Json)).length, (process_spaces (s :: sl') (build_node_table ((find_list_for_key ("items") container).getD [])) (build_children_map (build_node_table ((find_list_for_key ("items") container).getD []))) inc).2.2)).1 =
        parse_container_claim container idx inc
      rw [if_neg (by simp)]
      by_cases hpe : (process_spaces (s :: sl')
          (build_node_table ((find_list_for_key ("items") container).getD []))
          (build_children_map (build_node_table
            ((find_list_for_key ("items") container).getD [])))
          inc).1.isEmpty = true
      · rw [if_pos hpe]
        show container_root_wrap idx _ = parse_container_claim container idx inc
        rw [parse_container_claim, hsp]
        simp only [Option.getD_some]
        rw [if_pos hpe]
      · rw [if_neg hpe]
        show _ ++ _ = parse_container_claim container idx inc
        rw [parse_container_claim, hsp]
        simp only [Option.getD_some]
        rw [if_neg hpe]

/-- C10: every Bookmark in the output forest has a non-empty title and url
with no leading or trailing whitespace, and when none of the tab's
`savedTitle`, the tab's `title` and the node's own title is a non-empty
string, the Bookmark's title equals its stripped url. -/
theorem C10_bookmark_invariants (data : List (String × Json)) (inc allc : Bool) :
    (∀ b ∈ bookmarksOfList (parse_arc_sidebar data inc allc).1,
      b.title ≠ "" ∧ b.url ≠ "" ∧ noEdgeWs b.title = true ∧ noEdgeWs b.url = true) ∧
    (∀ (node : ArcNode) (fs tab : List (String × Json)) (b : Bookmark),
      node.data = .obj fs → alistGet fs "tab" = some (.obj tab) →
      get_tab_info node = some b →
      (∀ s, alistGet tab "savedTitle" = some (.str s) → s = "") →
      (∀ s, alistGet tab "title" = some (.str s) → s = "") →
      (∀ s, node.title = some s → s = "") →
      b.title = b.url) := by
  constructor
  · intro b hb
    have hg := GoodF_parse_arc_sidebar data inc allc b hb
    rw [goodBookmark] at hg
    simp only [Bool.and_eq_true, decide_eq_true_eq] at hg
    exact ⟨hg.1.1.1, hg.1.1.2, hg.1.2, hg.2⟩
  · intro node fs tab b hfs htab hti hA hB hC
    obtain ⟨fs', tab', u, hfs', htab', hurl, hune, hburl, hcase⟩ :=
      get_tab_info_char hti
    rw [hfs] at hfs'
    injection hfs' with hfs'
    subst hfs'
    rw [htab] at htab'
    injection htab' with htab'
    injection htab' with htab'
    subst htab'
    rcases hcase with ⟨t, hchain, htne, hbt⟩ | hbt
    · exfalso
      rcases pyOr_cases (pyOr (alistGet tab "savedTitle") (alistGet tab "title"))
          (node.title.map Json.str) with hc | hc
      · rw [hc] at hchain
        rcases pyOr_cases (alistGet tab "savedTitle") (alistGet tab "title")
            with hc2 | hc2
        · rw [hc2] at hchain
          have ht0 := hA t hchain
          subst ht0
          exact htne rfl
        · rw [hc2] at hchain
          have ht0 := hB t hchain
          subst ht0
          exact htne rfl
      · rw [hc] at hchain
        cases hnt : node.title with
        | none => rw [hnt] at hchain; exact absurd hchain (by simp)
        | some s =>
          rw [hnt] at hchain
          injection hchain with hchain
          injection hchain with hchain
          have hs0 := hC s hnt
          subst hs0
          rw [← hchain] at htne
          exact htne rfl
    · rw [hbt, hburl]

/-- Minimal sidebar document producing one bookmark, witnessing C10. -/
def c10data : List (String × Json) :=
  [("root", .obj [("sidebar", .obj [("containers", .arr
    [.obj [("items", .arr
      [.obj [("id", .str "t1"),
             ("data", .obj [("tab", .obj
               [("savedURL", .str " https://e.com "),
                ("savedTitle", .str "T")])])]])]])])])]

/-- Tab node whose every title candidate is missing, for the C10 fallback. -/
def c10node : ArcNode :=
  ⟨"t", none, none, .obj [("tab", .obj [("savedURL", .str "u")])], 0⟩

theorem C10_bookmark_invariants_witness :
    ((⟨"T", "https://e.com"⟩ : Bookmark).title ≠ "" ∧
      (⟨"T", "https://e.com"⟩ : Bookmark).url ≠ "" ∧
      noEdgeWs (⟨"T", "https://e.com"⟩ : Bookmark).title = true ∧
      noEdgeWs (⟨"T", "https://e.com"⟩ : Bookmark).url = true) ∧
    (⟨"u", "u"⟩ : Bookmark).title = (⟨"u", "u"⟩ : Bookmark).url := by
  constructor
  · apply (C10_bookmark_invariants c10data false false).1
    show (⟨"T", "https://e.com"⟩ : Bookmark) ∈
      bookmarksOfList (parse_arc_sidebar c10data false false).1
    have hev : (parse_arc_sidebar c10data false false).1 =
        [.folder ("Arc Export (Container 1)") [.bookmark ⟨"T", "https://e.com"⟩]] := by
      simp [parse_arc_sidebar, c10data, extract_containers, alistGet,
        select_containers, find_list_for_key, flk_fields, flk_list,
        sidebar_container_step, parse_container, build_node_table, pyOr, otruthy,
        jtruthy, build_children_map, container_root_ids, parent_in_table,
        alistHasKey, List.insertionSort, List.orderedInsert, first_with_items,
        build_children_from_ids, build_tree, build_forest, get_tab_info, pstrip,
        stripChars, dedupChildren, container_root_wrap, process_spaces,
        count_nodes, count_walk_list, count_walk, is_folder_like, get_node_title,
        first_filled]
      rfl
    rw [hev]
    simp [bookmarksOfList, bookmarksOf]
  · exact (C10_bookmark_invariants [] false false).2 c10node
      [("tab", .obj [("savedURL", .str "u")])] [("savedURL", .str "u")]
      ⟨"u", "u"⟩ rfl rfl rfl
      (by intro s hs; simp [alistGet] at hs)
      (by intro s hs; simp [alistGet] at hs)
      (by intro s hs; simp [c10node] at hs)
